import Mathlib

/-!
# fido2prf: the CTAP2 CBOR identity codec and the wrap / unwrap protocol

A shallow embedding of `fido2prf/internal/ctap2cbor/cbor.go` and of
`fido2prf/fido2prf.go`.

* A Go `byte` is a `Fin 256`; a `[]byte` and a Go `string` (an arbitrary byte
  sequence) are lists of bytes.
* `uint8` / `uint16` arithmetic is done on `Nat` with an explicit `% 256` /
  `% 65536` at each conversion.
* A Go function that can panic returns an `Option` (`none` is the panic).
* A method with a pointer receiver returns the new value of the receiver next
  to its results, also when it reports failure.
* The collaborators that are not part of the repository (the libfido2 driver,
  the PIN callback, SHA-256, HKDF, ChaCha20-Poly1305, base64, the random source)
  are fields of an environment record; what a theorem needs of them is a
  hypothesis of that theorem.
-/

namespace Fido2prf

/-- A Go `byte`. -/
abbrev Byte := Fin 256

/-- A Go `[]byte`. -/
abbrev Bytes := List Byte

/-- A Go `string`: an immutable sequence of bytes, not necessarily UTF-8. -/
abbrev GoString := List Byte

/-- Conversion of an unsigned integer to `uint8` (truncation). -/
def toUint8 (n : Nat) : Byte := ⟨n % 256, Nat.mod_lt n (by decide)⟩

/-- Conversion of an unsigned integer to `uint16` (truncation). -/
def toUint16 (n : Nat) : Nat := n % 65536

/-- The bytes of an ASCII literal of the source. -/
def ascii (s : String) : GoString := s.toList.map (fun c => toUint8 c.toNat)

namespace ctap2cbor

/-- Function `appendTypeAndArgument(buf, major, arg)`, with `major` a `uint8` and `arg` a
`uint16`. -/
def appendTypeAndArgument (buf : Bytes) (major : Nat) (arg : Nat) : Bytes :=
  if arg ≤ 23 then
    buf ++ [toUint8 (((major <<< 5) % 256) ||| (arg % 256))]
  else if arg ≤ 0xff then
    buf ++ [toUint8 (((major <<< 5) % 256) ||| 24), toUint8 arg]
  else
    buf ++ [toUint8 (((major <<< 5) % 256) ||| 25), toUint8 (arg >>> 8), toUint8 arg]

/-- Function `AppendUint(buf, arg)`. -/
def AppendUint (buf : Bytes) (arg : Nat) : Bytes :=
  appendTypeAndArgument buf 0 arg

/-- Function `AppendBytes(buf, arg)`; `none` is the panic "byte string too long". -/
def AppendBytes (buf : Bytes) (arg : Bytes) : Option Bytes :=
  if arg.length > 0xffff then none
  else
    let buf := appendTypeAndArgument buf 2 (toUint16 arg.length)
    some (buf ++ arg)

/-- Function `AppendString(buf, arg)`; `none` is the panic "string too long". -/
def AppendString (buf : Bytes) (arg : GoString) : Option Bytes :=
  if arg.length > 0xffff then none
  else
    let buf := appendTypeAndArgument buf 3 (toUint16 arg.length)
    some (buf ++ arg)

/-- The `for _, s := range arg` loop of `AppendArray`. -/
def appendStrings (buf : Bytes) : List GoString → Option Bytes
  | [] => some buf
  | s :: rest =>
    match AppendString buf s with
    | none => none
    | some buf => appendStrings buf rest

/-- Function `AppendArray(buf, arg...)`; `none` is a panic ("array too long", or the
panic of `AppendString` on an element). -/
def AppendArray (buf : Bytes) (arg : List GoString) : Option Bytes :=
  if arg.length > 0xffff then none
  else
    let buf := appendTypeAndArgument buf 4 (toUint16 arg.length)
    appendStrings buf arg

/-- The results `(major, arg, ok)` of `readTypeAndArgument` together with the
cursor `*s` it leaves. -/
structure Header where
  major : Nat
  arg : Nat
  ok : Bool
  s : Bytes
deriving DecidableEq, Repr

/-- Method `(s *String) readTypeAndArgument()`. The named results start at their zero
values; a bare `return` gives back what has been assigned so far.
`binary.BigEndian.Uint16(b)` is `b[0]` times 256 plus `b[1]`. -/
def readTypeAndArgument (s : Bytes) : Header :=
  match s with
  | [] => { major := 0, arg := 0, ok := false, s := s }
  | b0 :: _ =>
    let major := b0.val >>> 5
    let minor := b0.val &&& 0x1f
    if minor ≤ 23 then
      { major := major, arg := toUint16 minor, ok := true, s := s.drop 1 }
    else if minor = 24 then
      if s.length < 2 then { major := major, arg := 0, ok := false, s := s }
      else { major := major, arg := toUint16 (s.getD 1 0).val, ok := true, s := s.drop 2 }
    else if minor = 25 then
      if s.length < 3 then { major := major, arg := 0, ok := false, s := s }
      else
        { major := major
          arg := (s.getD 1 0).val * 256 + (s.getD 2 0).val
          ok := true
          s := s.drop 3 }
    else { major := major, arg := 0, ok := false, s := s }

/-- The outcome of a `Read*` method: the boolean it returns, the value of `*out`
and the cursor `*s` after the call. -/
structure Read (α : Type) where
  ok : Bool
  out : α
  s : Bytes
deriving DecidableEq, Repr

/-- Method `(s *String) ReadUint(out *uint16)`. -/
def ReadUint (s : Bytes) (out : Nat) : Read Nat :=
  let h := readTypeAndArgument s
  if !h.ok || h.major != 0 then { ok := false, out := out, s := h.s }
  else { ok := true, out := h.arg, s := h.s }

/-- Method `(s *String) ReadBytes(out *[]byte)`. -/
def ReadBytes (s : Bytes) (out : Bytes) : Read Bytes :=
  let h := readTypeAndArgument s
  if !h.ok || h.major != 2 then { ok := false, out := out, s := h.s }
  else if h.s.length < h.arg then { ok := false, out := out, s := h.s }
  else { ok := true, out := h.s.take h.arg, s := h.s.drop h.arg }

/-- Method `(s *String) ReadString(out *string)`. -/
def ReadString (s : Bytes) (out : GoString) : Read GoString :=
  let h := readTypeAndArgument s
  if !h.ok || h.major != 3 then { ok := false, out := out, s := h.s }
  else if h.s.length < h.arg then { ok := false, out := out, s := h.s }
  else { ok := true, out := h.s.take h.arg, s := h.s.drop h.arg }

/-- The loop `for i := range arg` of `ReadArray`, entered at index `i` with
`n` iterations left: append the empty string to `*out`, then read a text
string into `(*out)[i]`. -/
def readArrayLoop : Nat → Nat → Bytes → List GoString → Read (List GoString)
  | 0, _, s, out => { ok := true, out := out, s := s }
  | n + 1, i, s, out =>
    let out := out ++ [[]]
    let r := ReadString s (out.getD i [])
    if !r.ok then { ok := false, out := out.set i r.out, s := r.s }
    else readArrayLoop n (i + 1) r.s (out.set i r.out)

/-- Method `(s *String) ReadArray(out *[]string)`. -/
def ReadArray (s : Bytes) (out : List GoString) : Read (List GoString) :=
  let h := readTypeAndArgument s
  if !h.ok || h.major != 4 then { ok := false, out := out, s := h.s }
  else readArrayLoop h.arg 0 h.s out

/-- Method `(s String) Empty()`. -/
def Empty (s : Bytes) : Bool := s.length == 0

end ctap2cbor

/-! ## Package fido2prf -/

/-- A Go `error` value that is not nil. -/
inductive Error where
  /-- The value of `errors.New(msg)`. -/
  | New (msg : String)
  /-- The sentinel `libfido2.ErrNoCredentials`. -/
  | ErrNoCredentials
  /-- The sentinel `age.ErrIncorrectIdentity`. -/
  | ErrIncorrectIdentity
  /-- Any other error value handed back by a collaborator. -/
  | external (code : Nat)
deriving DecidableEq, Repr

deriving instance DecidableEq for Except

/-- Type `libfido2.DeviceLocation`; only `Path` is used. -/
structure DeviceLocation where
  Path : GoString
deriving DecidableEq, Repr

/-- Type `*libfido2.Device`, a handle on an opened device. -/
structure Device where
  handle : Nat
deriving DecidableEq, Repr

/-- Type `libfido2.OptionValue`. -/
inductive OptionValue where
  | Default
  | True
  | False
deriving DecidableEq, Repr

/-- Type `libfido2.Extension`. -/
inductive Extension where
  | HMACSecretExtension
  | CredProtectExtension
deriving DecidableEq, Repr

/-- Type `libfido2.AssertionOpts`; a field left out of a composite literal has its
zero value. -/
structure AssertionOpts where
  Extensions : List Extension := []
  UV : OptionValue := OptionValue.Default
  UP : OptionValue := OptionValue.Default
  HMACSalt : Bytes := []
deriving DecidableEq, Repr

/-- Type `*libfido2.Assertion`; only `HMACSecret` is used, `none` being the nil
slice. -/
structure Assertion where
  HMACSecret : Option Bytes
deriving DecidableEq, Repr

/-- Type `cipher.AEAD` as returned by `chacha20poly1305.New`. -/
structure AEAD where
  Overhead : Nat
  Seal : Bytes → Bytes → Bytes → Bytes → Bytes
  Open : Bytes → Bytes → Bytes → Bytes → Except Error Bytes

/-- Type `age.Stanza`; the field `Type` is written `Type_`. -/
structure Stanza where
  Type_ : GoString
  Args : List GoString
  Body : Bytes
deriving DecidableEq, Repr

/-- The collaborators of the package that live outside the repository. -/
structure Env where
  /-- Call `libfido2.DeviceLocations()`. -/
  DeviceLocations : Except Error (List DeviceLocation)
  /-- Call `libfido2.NewDevice(path)`. -/
  NewDevice : GoString → Except Error Device
  /-- Call `device.Assertion(rpID, clientDataHash, credentialIDs, pin, opts)`. -/
  Assertion : Device → GoString → Bytes → List Bytes → GoString → AssertionOpts →
    Except Error Assertion
  /-- SHA-256 of the bytes written to a `sha256.New()` digest. -/
  sha256 : Bytes → Bytes
  /-- Call `hkdf.Extract(sha256.New, secret, salt)`. -/
  hkdfExtract : Bytes → Bytes → Bytes
  /-- Call `chacha20poly1305.New(key)`. -/
  chacha20poly1305New : Bytes → Except Error AEAD
  /-- Call `base64.RawStdEncoding.Strict().DecodeString(s)`. -/
  base64Decode : GoString → Except Error Bytes
  /-- Call `base64.RawStdEncoding.Strict().EncodeToString(b)`. -/
  base64Encode : Bytes → GoString
  /-- Call `rand.Read(b)` on a buffer of the given length: the filled buffer. -/
  randRead : Nat → Except Error Bytes

/-- A call made to the hardware driver or to the PIN callback. -/
inductive Event where
  | deviceLocations
  | newDevice (path : GoString)
  | assertion (device : Device) (rpID : GoString) (clientDataHash : Bytes)
      (credentialIDs : List Bytes) (pin : GoString) (opts : AssertionOpts)
  | getPIN
deriving DecidableEq, Repr

/-- A result together with the calls made while computing it, in order. -/
abbrev Eff (α : Type) := α × List Event

/-- Put the calls `evs` in front of those of `x`. -/
def Eff.after {α : Type} (evs : List Event) (x : Eff α) : Eff α := (x.1, evs ++ x.2)

/-- Constant `chacha20poly1305.NonceSize`. -/
def chacha20poly1305.NonceSize : Nat := 12

/-- Value of `make([]byte, n)` and of `bytes.Repeat([]byte{0}, n)`. -/
def zeros (n : Nat) : Bytes := List.replicate n 0

/-- Declaration `type Identity struct`. -/
structure Identity where
  credentialID : Bytes
  relyingParty : GoString
  transports : List GoString
  getPIN : Unit → Except Error GoString

/-- Declaration `const label`. -/
def label : GoString := ascii "age-encryption.org/fido2prf"

/-- Function `hmacSecretSalt(nonce)`. The digest `h` is the list of the bytes written to
it; `h.Sum(b)` is `b` followed by the hash of those bytes. -/
def hmacSecretSalt (env : Env) (nonce : Bytes) : Bytes :=
  let h : Bytes := []
  let h := h ++ ascii "WebAuthn PRF"
  let h := h ++ [0]
  let h := h ++ label
  let h := h ++ [1]
  let h := h ++ nonce
  let salt := [] ++ env.sha256 h
  let h : Bytes := []
  let h := h ++ ascii "WebAuthn PRF"
  let h := h ++ [0]
  let h := h ++ label
  let h := h ++ [2]
  let h := h ++ nonce
  salt ++ env.sha256 h

/-- The loop `for _, loc := range locs` of `(i *Identity) assert`, with the
`return` that follows it. -/
def assertLoop (env : Env) (i : Identity) (nonce : Bytes) :
    List DeviceLocation → Eff (Except Error Bytes)
  | [] => (.error (Error.New "identity doesn't match any FIDO2 device"), [])
  | loc :: locs =>
    match env.NewDevice loc.Path with
    | .error err => (.error err, [Event.newDevice loc.Path])
    | .ok device =>
      let probeOpts : AssertionOpts := { UP := OptionValue.False }
      let probe := Event.assertion device i.relyingParty (zeros 32) [i.credentialID] []
        probeOpts
      match env.Assertion device i.relyingParty (zeros 32) [i.credentialID] [] probeOpts with
      | .error err =>
        if err = Error.ErrNoCredentials then
          Eff.after [Event.newDevice loc.Path, probe] (assertLoop env i nonce locs)
        else (.error err, [Event.newDevice loc.Path, probe])
      | .ok _ =>
        match i.getPIN () with
        | .error err => (.error err, [Event.newDevice loc.Path, probe, Event.getPIN])
        | .ok pin =>
          let opts : AssertionOpts :=
            { Extensions := [Extension.HMACSecretExtension]
              HMACSalt := hmacSecretSalt env nonce
              UV := OptionValue.True }
          let evs := [Event.newDevice loc.Path, probe, Event.getPIN,
            Event.assertion device i.relyingParty (zeros 32) [i.credentialID] pin opts]
          match env.Assertion device i.relyingParty (zeros 32) [i.credentialID] pin opts with
          | .error err => (.error err, evs)
          | .ok assertion =>
            match assertion.HMACSecret with
            | none =>
              (.error (Error.New "FIDO2 device doesn't support HMACSecret extension"), evs)
            | some secret => (.ok secret, evs)

/-- Method `(i *Identity) assert(nonce)`. -/
def Identity.assert (env : Env) (i : Identity) (nonce : Bytes) : Eff (Except Error Bytes) :=
  match env.DeviceLocations with
  | .error err => (.error err, [Event.deviceLocations])
  | .ok locs =>
    if locs.length = 0 then
      (.error (Error.New "no FIDO2 devices found"), [Event.deviceLocations])
    else Eff.after [Event.deviceLocations] (assertLoop env i nonce locs)

/-- Function `aeadDecrypt(key, size, ciphertext)`. -/
def aeadDecrypt (env : Env) (key : Bytes) (size : Nat) (ciphertext : Bytes) :
    Except Error Bytes :=
  match env.chacha20poly1305New key with
  | .error err => .error err
  | .ok aead =>
    if ciphertext.length ≠ size + aead.Overhead then
      .error (Error.New "encrypted value has unexpected length")
    else
      let nonce := zeros chacha20poly1305.NonceSize
      aead.Open [] nonce ciphertext []

/-- Function `aeadEncrypt(key, plaintext)`. -/
def aeadEncrypt (env : Env) (key : Bytes) (plaintext : Bytes) : Except Error Bytes :=
  match env.chacha20poly1305New key with
  | .error err => .error err
  | .ok aead =>
    let nonce := zeros chacha20poly1305.NonceSize
    .ok (aead.Seal [] nonce plaintext [])

/-- Method `(i *Identity) Unwrap(s)`: the loop `for _, stanza := range s` and the
`return` that follows it. -/
def Identity.Unwrap (env : Env) (i : Identity) : List Stanza → Eff (Except Error Bytes)
  | [] => (.error Error.ErrIncorrectIdentity, [])
  | stanza :: s =>
    if stanza.Type_ ≠ label then Identity.Unwrap env i s
    else if stanza.Args.length ≠ 1 then
      (.error (Error.New "fido2prf: invalid stanza: expected 1 argument"), [])
    else
      match env.base64Decode (stanza.Args.getD 0 []) with
      | .error _ => (.error (Error.New "fido2prf: invalid nonce"), [])
      | .ok nonce =>
        if nonce.length ≠ 16 then (.error (Error.New "fido2prf: invalid nonce"), [])
        else
          let a := Identity.assert env i nonce
          match a.1 with
          | .error err => (.error err, a.2)
          | .ok secret =>
            let key := env.hkdfExtract secret label
            match aeadDecrypt env key 16 stanza.Body with
            | .error _ => Eff.after a.2 (Identity.Unwrap env i s)
            | .ok fileKey => (.ok fileKey, a.2)

/-- Method `(i *Identity) Wrap(fileKey)`. -/
def Identity.Wrap (env : Env) (i : Identity) (fileKey : Bytes) :
    Eff (Except Error (List Stanza)) :=
  match env.randRead 16 with
  | .error err => (.error err, [])
  | .ok nonce =>
    let a := Identity.assert env i nonce
    match a.1 with
    | .error err => (.error err, a.2)
    | .ok secret =>
      let key := env.hkdfExtract secret label
      match aeadEncrypt env key fileKey with
      | .error err => (.error err, a.2)
      | .ok ciphertext =>
        (.ok [{ Type_ := label, Args := [env.base64Encode nonce], Body := ciphertext }], a.2)

/-- Function `NewIdentityFromData(data, getPIN)`. -/
def NewIdentityFromData (data : Bytes) (getPIN : Unit → Except Error GoString) :
    Except Error Identity :=
  let version : Nat := 0
  let i : Identity := { credentialID := [], relyingParty := [], transports := [], getPIN := getPIN }
  let s := data
  let rv := ctap2cbor.ReadUint s version
  if !rv.ok || rv.out != 1 then .error (Error.New "unsupported fido2prf version")
  else
    let rb := ctap2cbor.ReadBytes rv.s i.credentialID
    if !rb.ok then .error (Error.New "malformed fido2prf identity")
    else
      let rs := ctap2cbor.ReadString rb.s i.relyingParty
      if !rs.ok then .error (Error.New "malformed fido2prf identity")
      else
        let ra := ctap2cbor.ReadArray rs.s i.transports
        if !ra.ok then .error (Error.New "malformed fido2prf identity")
        else if !ctap2cbor.Empty ra.s then .error (Error.New "malformed fido2prf identity")
        else
          .ok { credentialID := rb.out, relyingParty := rs.out, transports := ra.out
                getPIN := getPIN }

/-- The payload built by lines 53 to 57 of `NewCredential`, for a credential
identifier, a relying party and a list of transports (`NewCredential` itself
passes the one transport "usb"); `none` when an `Append*` call panics. -/
def identityBytes (credentialID : Bytes) (rpID : GoString) (transports : List GoString) :
    Option Bytes :=
  let identity : Bytes := []
  let identity := ctap2cbor.AppendUint identity 1
  match ctap2cbor.AppendBytes identity credentialID with
  | none => none
  | some identity =>
    match ctap2cbor.AppendString identity rpID with
    | none => none
    | some identity => ctap2cbor.AppendArray identity transports

/-! ## Definitions used to state and to exercise the theorems -/

namespace ctap2cbor

/-- The bytes of a header with no buffer in front. -/
def hdr (m n : Nat) : Bytes := appendTypeAndArgument [] m n

/-- The encodings of the elements of an array, one after the other. -/
def encStrings : List GoString → Bytes
  | [] => []
  | s :: rest => hdr 3 s.length ++ s ++ encStrings rest

end ctap2cbor

/-- A PIN callback that always fails. -/
def pinNone : Unit → Except Error GoString := fun _ => .error (Error.external 0)

/-- The record of credential `01 02 03` for the relying party "example.org" with
the transport "usb", written out byte by byte. -/
def exampleRecord : Bytes :=
  [1, 0x43, 1, 2, 3, 0x6b] ++ ascii "example.org" ++ [0x81, 0x63] ++ ascii "usb"

/-- A string without its carriage returns and line feeds, the characters that
the base64 decoder of Go skips. -/
def stripLineBreaks (s : GoString) : GoString :=
  s.filter (fun c => c.val != 0x0a && c.val != 0x0d)

/-- A stanza list in which no stanza has this scheme's type. -/
def NoStanzaOfScheme (s : List Stanza) : Prop := ∀ p ∈ s, p.Type_ ≠ label

/-- The options of the probe that `assert` sends to each device first. -/
def probeOpts : AssertionOpts := { UP := OptionValue.False }

/-- Every enumerated device opens, and answers the probe for the identity's
relying party and credential with `libfido2.ErrNoCredentials`. -/
def NoCredentialOnAnyDevice (env : Env) (i : Identity) (locs : List DeviceLocation) : Prop :=
  env.DeviceLocations = .ok locs ∧
    ∀ loc ∈ locs, ∃ device, env.NewDevice loc.Path = .ok device ∧
      env.Assertion device i.relyingParty (zeros 32) [i.credentialID] [] probeOpts =
        .error Error.ErrNoCredentials

/-- A well-formed stanza of this scheme (one argument that decodes to a nonce of
16 bytes) for which the hardware call succeeds and the body does not open under
the derived key. -/
def OpenFails (env : Env) (i : Identity) (s : Stanza) : Prop :=
  ∃ arg nonce secret err, s.Type_ = label ∧ s.Args = [arg] ∧
    env.base64Decode arg = .ok nonce ∧ nonce.length = 16 ∧
    (Identity.assert env i nonce).1 = .ok secret ∧
    aeadDecrypt env (env.hkdfExtract secret label) 16 s.Body = .error err

/-! ### A software stand-in for the collaborators

A small deterministic environment: two devices, the second of which holds the
credential `01 02 03` of "example.org" behind the PIN "1234"; unpadded base64 as
in RFC 4648; a keyed checksum in place of the digest, of the extract step and of
the cipher. -/

namespace Sample

/-- The base64 alphabet. -/
def alphabet : GoString :=
  ascii "ABCDEFGHIJKLMNOPQRSTUVWXYZabcdefghijklmnopqrstuvwxyz0123456789+/"

/-- The character of a 6-bit value. -/
def enc6 (v : Nat) : Byte := alphabet.getD v 0

/-- The 6-bit value of a character of the alphabet. -/
def dec6 (c : Byte) : Option Nat :=
  let k := alphabet.indexOf c
  if k < 64 then some k else none

/-- Unpadded standard base64 encoding. -/
def base64Encode : Bytes → GoString
  | a :: b :: c :: rest =>
    enc6 (a.val / 4) :: enc6 (a.val % 4 * 16 + b.val / 16) ::
      enc6 (b.val % 16 * 4 + c.val / 64) :: enc6 (c.val % 64) :: base64Encode rest
  | [a, b] => [enc6 (a.val / 4), enc6 (a.val % 4 * 16 + b.val / 16), enc6 (b.val % 16 * 4)]
  | [a] => [enc6 (a.val / 4), enc6 (a.val % 4 * 16)]
  | [] => []

/-- Strict unpadded standard base64 decoding of a string without line breaks: no
padding, no character outside the alphabet, no non-zero trailing bits. -/
def decodeStrict : GoString → Except Error Bytes
  | w :: x :: y :: z :: rest =>
    match dec6 w, dec6 x, dec6 y, dec6 z, decodeStrict rest with
    | some w, some x, some y, some z, .ok tl =>
      .ok (toUint8 (w * 4 + x / 16) :: toUint8 (x % 16 * 16 + y / 4) ::
        toUint8 (y % 4 * 64 + z) :: tl)
    | _, _, _, _, _ => .error (Error.New "illegal base64 data")
  | [w, x, y] =>
    match dec6 w, dec6 x, dec6 y with
    | some w, some x, some y =>
      if y % 4 = 0 then .ok [toUint8 (w * 4 + x / 16), toUint8 (x % 16 * 16 + y / 4)]
      else .error (Error.New "illegal base64 data")
    | _, _, _ => .error (Error.New "illegal base64 data")
  | [w, x] =>
    match dec6 w, dec6 x with
    | some w, some x =>
      if x % 16 = 0 then .ok [toUint8 (w * 4 + x / 16)]
      else .error (Error.New "illegal base64 data")
    | _, _ => .error (Error.New "illegal base64 data")
  | [_] => .error (Error.New "illegal base64 data")
  | [] => .ok []

/-- The decoder of Go's `encoding/base64` for the strict unpadded standard
encoding: carriage returns and line feeds are ignored wherever they stand, and
what is left is decoded strictly. -/
def base64Decode (s : GoString) : Except Error Bytes :=
  decodeStrict (stripLineBreaks s)

/-- A 32-byte checksum standing in for SHA-256. -/
def digest (b : Bytes) : Bytes :=
  (List.range 32).map (fun k => toUint8 ((b.map (fun x => x.val)).sum + k * b.length + k))

/-- A cipher standing in for ChaCha20-Poly1305: the plaintext shifted by the
first key byte, followed by a 16-byte tag computed from the key and the
plaintext. -/
def tag (key plaintext : Bytes) : Bytes := (digest (key ++ plaintext)).take 16

/-- The stand-in cipher under a key. -/
def aead (key : Bytes) : AEAD where
  Overhead := 16
  Seal := fun dst _ plaintext _ =>
    dst ++ plaintext.map (fun x => x + key.getD 0 0) ++ tag key plaintext
  Open := fun dst _ ciphertext _ =>
    if ciphertext.length < 16 then
      .error (Error.New "chacha20poly1305: message authentication failed")
    else
      let body := ciphertext.take (ciphertext.length - 16)
      let plaintext := body.map (fun x => x - key.getD 0 0)
      if ciphertext.drop (ciphertext.length - 16) = tag key plaintext then
        .ok (dst ++ plaintext)
      else .error (Error.New "chacha20poly1305: message authentication failed")

/-- The answer of a device to an assertion request. -/
def deviceAssertion (device : Device) (rpID : GoString) (credentialIDs : List Bytes)
    (pin : GoString) (opts : AssertionOpts) : Except Error Assertion :=
  if device.handle = 1 ∧ rpID = ascii "example.org" ∧ credentialIDs = [[1, 2, 3]] then
    if opts.UV = OptionValue.True ∧ pin ≠ ascii "1234" then .error (Error.external 0x31)
    else if Extension.HMACSecretExtension ∈ opts.Extensions then
      .ok { HMACSecret := some (digest (7 :: opts.HMACSalt)) }
    else .ok { HMACSecret := none }
  else .error Error.ErrNoCredentials

/-- The stand-in environment; the random source yields the given nonce. -/
def env (nonce : Bytes) : Env where
  DeviceLocations := .ok [{ Path := ascii "/dev/hidraw0" }, { Path := ascii "/dev/hidraw1" }]
  NewDevice := fun path =>
    if path = ascii "/dev/hidraw0" then .ok { handle := 0 }
    else if path = ascii "/dev/hidraw1" then .ok { handle := 1 }
    else .error (Error.external 1)
  Assertion := fun device rpID _ credentialIDs pin opts =>
    deviceAssertion device rpID credentialIDs pin opts
  sha256 := digest
  hkdfExtract := fun secret salt => digest (salt ++ secret)
  chacha20poly1305New := fun key =>
    if key.length = 32 then .ok (aead key)
    else .error (Error.New "chacha20poly1305: bad key length")
  base64Decode := base64Decode
  base64Encode := base64Encode
  randRead := fun n => .ok (nonce.take n)

/-- The stand-in environment with devices that lack the hmac-secret extension:
the second device still holds the credential, but its assertions carry no
secret. -/
def envNoSecret : Env :=
  { env [] with
    Assertion := fun device rpID _ credentialIDs _ _ =>
      if device.handle = 1 ∧ rpID = ascii "example.org" ∧ credentialIDs = [[1, 2, 3]] then
        .ok { HMACSecret := none }
      else .error Error.ErrNoCredentials }

/-- The PIN callback of a user who knows the PIN. -/
def getPIN : Unit → Except Error GoString := fun _ => .ok (ascii "1234")

/-- The identity of the credential held by the second device. -/
def identity : Identity :=
  { credentialID := [1, 2, 3], relyingParty := ascii "example.org"
    transports := [ascii "usb"], getPIN := getPIN }

/-- An identity whose credential no device holds. -/
def stranger : Identity :=
  { credentialID := [9, 9], relyingParty := ascii "example.org"
    transports := [ascii "usb"], getPIN := getPIN }

/-- A nonce. -/
def nonce : Bytes := [0, 1, 2, 3, 4, 5, 6, 7, 8, 9, 10, 11, 12, 13, 14, 15]

/-- A file key. -/
def fileKey : Bytes := [16, 17, 18, 19, 20, 21, 22, 23, 24, 25, 26, 27, 28, 29, 30, 31]

/-- The secret that the second device derives for `nonce`. -/
def secret : Bytes := digest (7 :: hmacSecretSalt (env nonce) nonce)

/-- The key derived from `secret`. -/
def key : Bytes := (env nonce).hkdfExtract secret label

/-- The stanza that wraps `fileKey` for `identity` under `nonce`. -/
def stanza : Stanza :=
  { Type_ := label, Args := [ascii "AAECAwQFBgcICQoLDA0ODw"]
    Body := (aead key).Seal [] (zeros 12) fileKey [] }

/-- The stanza `stanza` with the last byte of its body changed. -/
def tampered : Stanza :=
  { Type_ := label, Args := [ascii "AAECAwQFBgcICQoLDA0ODw"]
    Body := ((aead key).Seal [] (zeros 12) fileKey []).take 31 ++ [0] }

/-- The stanza `stanza` with a line feed after its argument. -/
def newlineArg : Stanza :=
  { Type_ := label, Args := [ascii "AAECAwQFBgcICQoLDA0ODw" ++ [0x0a]]
    Body := (aead key).Seal [] (zeros 12) fileKey [] }

/-- A stanza of this scheme with two arguments. -/
def twoArgs : Stanza :=
  { Type_ := label, Args := [ascii "AAECAwQFBgcICQoLDA0ODw", ascii "AAAA"], Body := [] }

/-- A stanza of this scheme whose argument carries base64 padding. -/
def padded : Stanza :=
  { Type_ := label, Args := [ascii "AAECAwQFBgcICQoLDA0ODw=="], Body := [] }

/-- A file key of three bytes. -/
def shortKey : Bytes := [1, 2, 3]

/-- A stanza of another scheme. -/
def otherStanza : Stanza :=
  { Type_ := ascii "X25519", Args := [ascii "AAAA"], Body := [1, 2, 3] }

end Sample

/-! ### The header of an item as the specification words it -/

namespace ctap2cbor

/-- The header of an item in the words of the specification, to be compared with
`readTypeAndArgument`: the high 3 bits of the first byte are the major type; when
its low 5 bits are at most 23 they are the argument, when they are 24 the
argument is the next byte, when they are 25 it is the next two bytes, big-endian;
any other value of the low 5 bits, or a missing argument byte, is no header.
The result is the major type, the argument and the bytes after the header. -/
def specHeader : Bytes → Option (Nat × Nat × Bytes)
  | [] => none
  | b0 :: tl =>
    if b0.val % 32 ≤ 23 then some (b0.val / 32, b0.val % 32, tl)
    else if b0.val % 32 = 24 then
      match tl with
      | b1 :: rest => some (b0.val / 32, b1.val, rest)
      | [] => none
    else if b0.val % 32 = 25 then
      match tl with
      | b1 :: b2 :: rest => some (b0.val / 32, b1.val * 256 + b2.val, rest)
      | _ => none
    else none

end ctap2cbor

/-! ### What the theorems assume of the cipher, of base64 and of the random source -/

/-- The contract of `chacha20poly1305.New` on keys of the right size: a key of 32
bytes gives a cipher whose overhead is the 16 bytes of the tag. -/
def ChaChaKeyed (env : Env) : Prop :=
  ∀ key, key.length = 32 →
    ∃ aead, env.chacha20poly1305New key = .ok aead ∧ aead.Overhead = 16

/-- The contract of a cipher returned by `chacha20poly1305.New`, for a `nil`
destination and no additional data: sealing adds the overhead to the length, and
opening under the same nonce gives the plaintext back. -/
def ChaChaSeals (env : Env) : Prop :=
  ∀ key aead, env.chacha20poly1305New key = .ok aead → ∀ nonce plaintext,
    (aead.Seal [] nonce plaintext []).length = plaintext.length + aead.Overhead ∧
    aead.Open [] nonce (aead.Seal [] nonce plaintext []) [] = .ok plaintext

/-- The constant `chacha20poly1305.Overhead`: every cipher that
`chacha20poly1305.New` returns has an overhead of 16 bytes. -/
def ChaChaOverhead (env : Env) : Prop :=
  ∀ key aead, env.chacha20poly1305New key = .ok aead → aead.Overhead = 16

/-- The contract of the base64 decoder towards the encoder: what it decodes to
some bytes is, once the line breaks it skips are removed, the encoding of those
bytes. -/
def Base64Sound (env : Env) : Prop :=
  ∀ arg b, env.base64Decode arg = .ok b → stripLineBreaks arg = env.base64Encode b

/-! ### One hardware call, device by device -/

/-- The probe that `assert` sends to a device. -/
def probeOf (i : Identity) (device : Device) : Event :=
  Event.assertion device i.relyingParty (zeros 32) [i.credentialID] [] probeOpts

/-- The options of the second assertion, which carries the salt. -/
def saltOpts (env : Env) (nonce : Bytes) : AssertionOpts :=
  { Extensions := [Extension.HMACSecretExtension]
    HMACSalt := hmacSecretSalt env nonce
    UV := OptionValue.True }

/-- The device at `loc` opens and answers the probe with "no such credential". -/
def Skipped (env : Env) (i : Identity) (loc : DeviceLocation) : Prop :=
  ∃ device, env.NewDevice loc.Path = .ok device ∧
    env.Assertion device i.relyingParty (zeros 32) [i.credentialID] [] probeOpts =
      .error Error.ErrNoCredentials

/-- The calls made for devices that are skipped: each is opened and probed, in
the order of the enumeration, and nothing else happens. -/
def skipEvents (env : Env) (i : Identity) : List DeviceLocation → List Event
  | [] => []
  | loc :: locs =>
    match env.NewDevice loc.Path with
    | .ok device => Event.newDevice loc.Path :: probeOf i device :: skipEvents env i locs
    | .error _ => Event.newDevice loc.Path :: skipEvents env i locs

/-- What happens at an opened device whose answer to the probe is not "no such
credential", with the calls made there: the error of the probe, else the error
of the PIN request, else the error of the second assertion, else the secret of
that assertion, or an error of its own when the assertion carries no secret. -/
def atDevice (env : Env) (i : Identity) (nonce : Bytes) (device : Device) :
    Eff (Except Error Bytes) :=
  match env.Assertion device i.relyingParty (zeros 32) [i.credentialID] [] probeOpts with
  | .error err => (.error err, [probeOf i device])
  | .ok _ =>
    match i.getPIN () with
    | .error err => (.error err, [probeOf i device, Event.getPIN])
    | .ok pin =>
      let second := Event.assertion device i.relyingParty (zeros 32) [i.credentialID] pin
        (saltOpts env nonce)
      match env.Assertion device i.relyingParty (zeros 32) [i.credentialID] pin
          (saltOpts env nonce) with
      | .error err => (.error err, [probeOf i device, Event.getPIN, second])
      | .ok assertion =>
        match assertion.HMACSecret with
        | some secret => (.ok secret, [probeOf i device, Event.getPIN, second])
        | none =>
          (.error (Error.New "FIDO2 device doesn't support HMACSecret extension"),
            [probeOf i device, Event.getPIN, second])

/-! ### Well-formed UTF-8 -/

/-- A continuation byte, `10xxxxxx`. -/
def isCont (b : Byte) : Bool := 0x80 ≤ b.val && b.val ≤ 0xBF

/-- Well-formed UTF-8 (RFC 3629, what Go's `utf8.Valid` accepts): no stray
continuation byte, no truncated or overlong sequence, no surrogate, nothing
above U+10FFFF. -/
def validUTF8 : Bytes → Bool
  | [] => true
  | b0 :: rest =>
    if b0.val < 0x80 then validUTF8 rest
    else if 0xC2 ≤ b0.val ∧ b0.val ≤ 0xDF then
      match rest with
      | b1 :: r => isCont b1 && validUTF8 r
      | _ => false
    else if 0xE0 ≤ b0.val ∧ b0.val ≤ 0xEF then
      match rest with
      | b1 :: b2 :: r =>
        isCont b1 && isCont b2 &&
          (b0.val != 0xE0 || 0xA0 ≤ b1.val) && (b0.val != 0xED || b1.val ≤ 0x9F) &&
          validUTF8 r
      | _ => false
    else if 0xF0 ≤ b0.val ∧ b0.val ≤ 0xF4 then
      match rest with
      | b1 :: b2 :: b3 :: r =>
        isCont b1 && isCont b2 && isCont b3 &&
          (b0.val != 0xF0 || 0x90 ≤ b1.val) && (b0.val != 0xF4 || b1.val ≤ 0x8F) &&
          validUTF8 r
      | _ => false
    else false

/-! ### The decoder with the run-time checks of Go made explicit

In this second embedding of the decoder every index and slice expression is
checked against the length of the slice, and `none` is the run-time panic. -/

namespace ctap2cbor.Checked

/-- The index expression `s[i]`. -/
def index {α : Type} (s : List α) (i : Nat) : Option α :=
  if i < s.length then s.get? i else none

/-- The slice expression `s[lo:]`. -/
def sliceFrom (s : Bytes) (lo : Nat) : Option Bytes :=
  if lo ≤ s.length then some (s.drop lo) else none

/-- The slice expression `s[:hi]`, with `hi` checked against the length. -/
def sliceTo (s : Bytes) (hi : Nat) : Option Bytes :=
  if hi ≤ s.length then some (s.take hi) else none

/-- Method `(s *String) readTypeAndArgument()` with its checks.
`binary.BigEndian.Uint16(b)` reads `b[1]`, then `b[0]`. -/
def readTypeAndArgument (s : Bytes) : Option Header :=
  if s.length < 1 then some { major := 0, arg := 0, ok := false, s := s }
  else do
    let b0 ← index s 0
    let major := b0.val >>> 5
    let b0 ← index s 0
    let minor := b0.val &&& 0x1f
    if minor ≤ 23 then do
      let s1 ← sliceFrom s 1
      pure { major := major, arg := toUint16 minor, ok := true, s := s1 }
    else if minor = 24 then
      if s.length < 2 then pure { major := major, arg := 0, ok := false, s := s }
      else do
        let b1 ← index s 1
        let s2 ← sliceFrom s 2
        pure { major := major, arg := toUint16 b1.val, ok := true, s := s2 }
    else if minor = 25 then
      if s.length < 3 then pure { major := major, arg := 0, ok := false, s := s }
      else do
        let t ← sliceFrom s 1
        let lo ← index t 1
        let hi ← index t 0
        let s3 ← sliceFrom s 3
        pure { major := major, arg := hi.val * 256 + lo.val, ok := true, s := s3 }
    else pure { major := major, arg := 0, ok := false, s := s }

/-- Method `(s *String) ReadUint(out *uint16)` with its checks. -/
def ReadUint (s : Bytes) (out : Nat) : Option (Read Nat) := do
  let h ← readTypeAndArgument s
  if !h.ok || h.major != 0 then pure { ok := false, out := out, s := h.s }
  else pure { ok := true, out := h.arg, s := h.s }

/-- Method `(s *String) ReadBytes(out *[]byte)` with its checks. -/
def ReadBytes (s : Bytes) (out : Bytes) : Option (Read Bytes) := do
  let h ← readTypeAndArgument s
  if !h.ok || h.major != 2 then pure { ok := false, out := out, s := h.s }
  else if h.s.length < h.arg then pure { ok := false, out := out, s := h.s }
  else do
    let o ← sliceTo h.s h.arg
    let s1 ← sliceFrom h.s h.arg
    pure { ok := true, out := o, s := s1 }

/-- Method `(s *String) ReadString(out *string)` with its checks. -/
def ReadString (s : Bytes) (out : GoString) : Option (Read GoString) := do
  let h ← readTypeAndArgument s
  if !h.ok || h.major != 3 then pure { ok := false, out := out, s := h.s }
  else if h.s.length < h.arg then pure { ok := false, out := out, s := h.s }
  else do
    let o ← sliceTo h.s h.arg
    let s1 ← sliceFrom h.s h.arg
    pure { ok := true, out := o, s := s1 }

/-- The loop of `ReadArray` with its checks: `&(*out)[i]` is an index
expression. -/
def readArrayLoop : Nat → Nat → Bytes → List GoString → Option (Read (List GoString))
  | 0, _, s, out => some { ok := true, out := out, s := s }
  | n + 1, i, s, out => do
    let out := out ++ [[]]
    let cur ← index out i
    let r ← ReadString s cur
    if !r.ok then pure { ok := false, out := out.set i r.out, s := r.s }
    else readArrayLoop n (i + 1) r.s (out.set i r.out)

/-- Method `(s *String) ReadArray(out *[]string)` with its checks. -/
def ReadArray (s : Bytes) (out : List GoString) : Option (Read (List GoString)) := do
  let h ← readTypeAndArgument s
  if !h.ok || h.major != 4 then pure { ok := false, out := out, s := h.s }
  else readArrayLoop h.arg 0 h.s out

/-- Function `NewIdentityFromData(data, getPIN)` over the checked decoder. -/
def NewIdentityFromData (data : Bytes) (getPIN : Unit → Except Error GoString) :
    Option (Except Error Identity) := do
  let rv ← ReadUint data 0
  if !rv.ok || rv.out != 1 then pure (.error (Error.New "unsupported fido2prf version"))
  else do
    let rb ← ReadBytes rv.s []
    if !rb.ok then pure (.error (Error.New "malformed fido2prf identity"))
    else do
      let rs ← ReadString rb.s []
      if !rs.ok then pure (.error (Error.New "malformed fido2prf identity"))
      else do
        let ra ← ReadArray rs.s []
        if !ra.ok then pure (.error (Error.New "malformed fido2prf identity"))
        else if !Empty ra.s then pure (.error (Error.New "malformed fido2prf identity"))
        else
          pure (.ok { credentialID := rb.out, relyingParty := rs.out, transports := ra.out
                      getPIN := getPIN })

end ctap2cbor.Checked

/-! ## The codec -/

namespace ctap2cbor

theorem appendTypeAndArgument_eq_append (buf : Bytes) (m n : Nat) :
    appendTypeAndArgument buf m n = buf ++ appendTypeAndArgument [] m n := by
  unfold appendTypeAndArgument
  split
  · simp
  · split <;> simp

theorem hdr_small_fin : ∀ m : Fin 8, ∀ n : Fin 24,
    (toUint8 (((m.val <<< 5) % 256) ||| (n.val % 256))).val >>> 5 = m.val ∧
    (toUint8 (((m.val <<< 5) % 256) ||| (n.val % 256))).val &&& 0x1f = n.val := by
  decide

theorem hdr_small (m n : Nat) (hm : m < 8) (hn : n ≤ 23) :
    (toUint8 (((m <<< 5) % 256) ||| (n % 256))).val >>> 5 = m ∧
    (toUint8 (((m <<< 5) % 256) ||| (n % 256))).val &&& 0x1f = n :=
  hdr_small_fin ⟨m, hm⟩ ⟨n, by omega⟩

theorem hdr_tag_fin : ∀ m : Fin 8, ∀ k : Fin 2,
    (toUint8 (((m.val <<< 5) % 256) ||| (24 + k.val))).val >>> 5 = m.val ∧
    (toUint8 (((m.val <<< 5) % 256) ||| (24 + k.val))).val &&& 0x1f = 24 + k.val := by
  decide

theorem hdr_24 (m : Nat) (hm : m < 8) :
    (toUint8 (((m <<< 5) % 256) ||| 24)).val >>> 5 = m ∧
    (toUint8 (((m <<< 5) % 256) ||| 24)).val &&& 0x1f = 24 :=
  hdr_tag_fin ⟨m, hm⟩ 0

theorem hdr_25 (m : Nat) (hm : m < 8) :
    (toUint8 (((m <<< 5) % 256) ||| 25)).val >>> 5 = m ∧
    (toUint8 (((m <<< 5) % 256) ||| 25)).val &&& 0x1f = 25 :=
  hdr_tag_fin ⟨m, hm⟩ 1

theorem toUint8_val (n : Nat) : (toUint8 n).val = n % 256 := rfl

theorem readTypeAndArgument_append (m n : Nat) (rest : Bytes) (hm : m < 8) (hn : n < 65536) :
    readTypeAndArgument (appendTypeAndArgument [] m n ++ rest) =
      { major := m, arg := n, ok := true, s := rest } := by
  unfold appendTypeAndArgument
  by_cases h1 : n ≤ 23
  · obtain ⟨a, b⟩ := hdr_small m n hm h1
    simp only [h1, if_true, List.nil_append, List.singleton_append, readTypeAndArgument, a, b]
    simp [toUint16]; omega
  · by_cases h2 : n ≤ 0xff
    · obtain ⟨a, b⟩ := hdr_24 m hm
      simp only [h1, h2, if_true, if_false, List.nil_append, List.cons_append, readTypeAndArgument, a, b]
      simp only [List.length_cons, List.getD_cons_succ, List.getD_cons_zero, List.drop_succ_cons,
        List.drop_zero, toUint16, toUint8_val]
      have e : n % 256 % 65536 = n := by omega
      have l : ¬ (rest.length + 1 + 1 < 2) := by omega
      simp [e, l]
    · obtain ⟨a, b⟩ := hdr_25 m hm
      simp only [h1, h2, if_true, if_false, List.nil_append, List.cons_append, readTypeAndArgument, a, b]
      simp only [List.length_cons, List.getD_cons_succ, List.getD_cons_zero, List.drop_succ_cons,
        List.drop_zero, toUint8_val, Nat.shiftRight_eq_div_pow]
      have e : n / 256 % 256 * 256 + n % 256 = n := by omega
      have l : ¬ (rest.length + 1 + 1 + 1 < 3) := by omega
      simp [e, l]


theorem AppendBytes_eq (buf arg : Bytes) (h : arg.length ≤ 65535) :
    AppendBytes buf arg = some (buf ++ (hdr 2 arg.length ++ arg)) := by
  have e : arg.length % 65536 = arg.length := by omega
  have l : ¬ (arg.length > 0xffff) := by omega
  simp only [AppendBytes, l, if_false, toUint16, e, hdr]
  rw [appendTypeAndArgument_eq_append, List.append_assoc]

theorem AppendString_eq (buf : Bytes) (arg : GoString) (h : arg.length ≤ 65535) :
    AppendString buf arg = some (buf ++ (hdr 3 arg.length ++ arg)) := by
  have e : arg.length % 65536 = arg.length := by omega
  have l : ¬ (arg.length > 0xffff) := by omega
  simp only [AppendString, l, if_false, toUint16, e, hdr]
  rw [appendTypeAndArgument_eq_append, List.append_assoc]

theorem appendStrings_eq (ts : List GoString) (h : ∀ t ∈ ts, t.length ≤ 65535) (buf : Bytes) :
    appendStrings buf ts = some (buf ++ encStrings ts) := by
  induction ts generalizing buf with
  | nil => simp [appendStrings, encStrings]
  | cons t ts ih =>
    have ht : t.length ≤ 65535 := h t (List.mem_cons_self _ _)
    have hts : ∀ u ∈ ts, u.length ≤ 65535 := fun u hu => h u (List.mem_cons_of_mem _ hu)
    simp only [appendStrings, AppendString_eq buf t ht, ih hts, encStrings, List.append_assoc]

theorem AppendArray_eq (buf : Bytes) (ts : List GoString) (hn : ts.length ≤ 65535)
    (h : ∀ t ∈ ts, t.length ≤ 65535) :
    AppendArray buf ts = some (buf ++ (hdr 4 ts.length ++ encStrings ts)) := by
  have e : ts.length % 65536 = ts.length := by omega
  have l : ¬ (ts.length > 0xffff) := by omega
  simp only [AppendArray, l, if_false, toUint16, e, hdr, appendStrings_eq ts h]
  rw [appendTypeAndArgument_eq_append, List.append_assoc]

theorem ReadUint_hdr (n : Nat) (rest : Bytes) (out : Nat) (hn : n < 65536) :
    ReadUint (hdr 0 n ++ rest) out = { ok := true, out := n, s := rest } := by
  simp [ReadUint, hdr, readTypeAndArgument_append 0 n rest (by decide) hn]

theorem ReadBytes_hdr (arg rest out : Bytes) (h : arg.length ≤ 65535) :
    ReadBytes (hdr 2 arg.length ++ (arg ++ rest)) out = { ok := true, out := arg, s := rest } := by
  simp [ReadBytes, hdr, readTypeAndArgument_append 2 arg.length (arg ++ rest) (by decide)
    (by omega)]

theorem ReadString_hdr (arg : GoString) (rest : Bytes) (out : GoString)
    (h : arg.length ≤ 65535) :
    ReadString (hdr 3 arg.length ++ (arg ++ rest)) out =
      { ok := true, out := arg, s := rest } := by
  simp [ReadString, hdr, readTypeAndArgument_append 3 arg.length (arg ++ rest) (by decide)
    (by omega)]

theorem readArrayLoop_enc (ts : List GoString) (h : ∀ t ∈ ts, t.length ≤ 65535)
    (rest : Bytes) (out : List GoString) :
    readArrayLoop ts.length out.length (encStrings ts ++ rest) out =
      { ok := true, out := out ++ ts, s := rest } := by
  induction ts generalizing out with
  | nil => simp [readArrayLoop, encStrings]
  | cons t ts ih =>
    have ht : t.length ≤ 65535 := h t (List.mem_cons_self _ _)
    have hts : ∀ u ∈ ts, u.length ≤ 65535 := fun u hu => h u (List.mem_cons_of_mem _ hu)
    have hset : (out ++ [[]]).set out.length t = out ++ [t] := by
      simp [List.set_append_right]
    have hlen : (out ++ [t]).length = out.length + 1 := by simp
    simp only [List.length_cons, readArrayLoop, encStrings, List.append_assoc,
      ReadString_hdr t (encStrings ts ++ rest) _ ht, Bool.not_true, Bool.false_eq_true,
      if_false, hset]
    rw [← hlen, ih hts (out ++ [t])]
    simp

theorem ReadArray_enc (ts : List GoString) (hn : ts.length ≤ 65535)
    (h : ∀ t ∈ ts, t.length ≤ 65535) (rest : Bytes) :
    ReadArray (hdr 4 ts.length ++ (encStrings ts ++ rest)) [] =
      { ok := true, out := ts, s := rest } := by
  have := readArrayLoop_enc ts h rest []
  simp only [List.length_nil, List.nil_append] at this
  simp [ReadArray, hdr, readTypeAndArgument_append 4 ts.length _ (by decide)
    (show ts.length < 65536 by omega), this]

end ctap2cbor

theorem identityBytes_eq (cred : Bytes) (rp : GoString) (ts : List GoString)
    (hc : cred.length ≤ 65535) (hr : rp.length ≤ 65535) (hn : ts.length ≤ 65535)
    (ht : ∀ t ∈ ts, t.length ≤ 65535) :
    identityBytes cred rp ts =
      some (ctap2cbor.hdr 0 1 ++ (ctap2cbor.hdr 2 cred.length ++ (cred ++
        (ctap2cbor.hdr 3 rp.length ++ (rp ++
          (ctap2cbor.hdr 4 ts.length ++ ctap2cbor.encStrings ts)))))) := by
  simp only [identityBytes, ctap2cbor.AppendUint, ctap2cbor.AppendBytes_eq _ cred hc,
    ctap2cbor.AppendString_eq _ rp hr, ctap2cbor.AppendArray_eq _ ts hn ht,
    List.append_assoc]
  rfl

theorem NewIdentityFromData_enc (cred : Bytes) (rp : GoString) (ts : List GoString)
    (hc : cred.length ≤ 65535) (hr : rp.length ≤ 65535) (hn : ts.length ≤ 65535)
    (ht : ∀ t ∈ ts, t.length ≤ 65535) (rest : Bytes)
    (getPIN : Unit → Except Error GoString) :
    NewIdentityFromData (ctap2cbor.hdr 0 1 ++ (ctap2cbor.hdr 2 cred.length ++ (cred ++
        (ctap2cbor.hdr 3 rp.length ++ (rp ++
          (ctap2cbor.hdr 4 ts.length ++ (ctap2cbor.encStrings ts ++ rest))))))) getPIN =
      if rest.length = 0 then
        .ok { credentialID := cred, relyingParty := rp, transports := ts, getPIN := getPIN }
      else .error (Error.New "malformed fido2prf identity") := by
  simp only [NewIdentityFromData, ctap2cbor.ReadUint_hdr 1 _ _ (by decide),
    ctap2cbor.ReadBytes_hdr cred _ _ hc, ctap2cbor.ReadString_hdr rp _ _ hr,
    ctap2cbor.ReadArray_enc ts hn ht rest, ctap2cbor.Empty]
  by_cases h : rest.length = 0 <;> simp [h]


namespace ctap2cbor

theorem readTypeAndArgument_ext (s t : Bytes) (h : (readTypeAndArgument s).ok = true) :
    readTypeAndArgument (s ++ t) =
      { major := (readTypeAndArgument s).major, arg := (readTypeAndArgument s).arg,
        ok := true, s := (readTypeAndArgument s).s ++ t } := by
  cases s with
  | nil => simp [readTypeAndArgument] at h
  | cons b0 s =>
    simp only [List.cons_append, readTypeAndArgument] at h ⊢
    by_cases h1 : (b0.val &&& 0x1f) ≤ 23
    · simp [h1]
    · simp only [h1, if_false] at h ⊢
      by_cases h2 : (b0.val &&& 0x1f) = 24
      · simp only [h2, if_true] at h ⊢
        cases s with
        | nil => simp at h
        | cons b1 s =>
          have l1 : ¬ (s.length + List.length t + 1 + 1 < 2) := by omega
          have l2 : ¬ (s.length + 1 + 1 < 2) := by omega
          simp [l1, l2]
      · simp only [h2, if_false] at h ⊢
        by_cases h3 : (b0.val &&& 0x1f) = 25
        · simp only [h3, if_true] at h ⊢
          cases s with
          | nil => simp at h
          | cons b1 s =>
            cases s with
            | nil => simp at h
            | cons b2 s =>
              have l1 : ¬ (s.length + List.length t + 1 + 1 + 1 < 3) := by omega
              have l2 : ¬ (s.length + 1 + 1 + 1 < 3) := by omega
              simp [l1, l2]
        · simp [h3] at h

theorem ReadUint_ext (s t : Bytes) (out : Nat) (h : (ReadUint s out).ok = true) :
    ReadUint (s ++ t) out =
      { ok := true, out := (ReadUint s out).out, s := (ReadUint s out).s ++ t } := by
  unfold ReadUint at h ⊢
  by_cases hk : (readTypeAndArgument s).ok = true
  · rw [readTypeAndArgument_ext s t hk]
    by_cases hm : (readTypeAndArgument s).major = 0
    · simp [hk, hm]
    · simp [hk, hm] at h
  · simp [hk] at h

theorem ReadBytes_ext (s t out : Bytes) (h : (ReadBytes s out).ok = true) :
    ReadBytes (s ++ t) out =
      { ok := true, out := (ReadBytes s out).out, s := (ReadBytes s out).s ++ t } := by
  unfold ReadBytes at h ⊢
  by_cases hk : (readTypeAndArgument s).ok = true
  · rw [readTypeAndArgument_ext s t hk]
    by_cases hm : (readTypeAndArgument s).major = 2
    · by_cases hl : (readTypeAndArgument s).s.length < (readTypeAndArgument s).arg
      · simp [hk, hm, hl] at h
      · have hl2 : ¬ ((readTypeAndArgument s).s.length + t.length < (readTypeAndArgument s).arg) := by
          omega
        have hle : (readTypeAndArgument s).arg ≤ (readTypeAndArgument s).s.length := by omega
        simp [hk, hm, hl, hl2, List.take_append_of_le_length hle,
          List.drop_append_of_le_length hle]
    · simp [hk, hm] at h
  · simp [hk] at h

theorem ReadString_ext (s t : Bytes) (out : GoString) (h : (ReadString s out).ok = true) :
    ReadString (s ++ t) out =
      { ok := true, out := (ReadString s out).out, s := (ReadString s out).s ++ t } := by
  unfold ReadString at h ⊢
  by_cases hk : (readTypeAndArgument s).ok = true
  · rw [readTypeAndArgument_ext s t hk]
    by_cases hm : (readTypeAndArgument s).major = 3
    · by_cases hl : (readTypeAndArgument s).s.length < (readTypeAndArgument s).arg
      · simp [hk, hm, hl] at h
      · have hl2 : ¬ ((readTypeAndArgument s).s.length + t.length < (readTypeAndArgument s).arg) := by
          omega
        have hle : (readTypeAndArgument s).arg ≤ (readTypeAndArgument s).s.length := by omega
        simp [hk, hm, hl, hl2, List.take_append_of_le_length hle,
          List.drop_append_of_le_length hle]
    · simp [hk, hm] at h
  · simp [hk] at h

theorem readArrayLoop_ext (n : Nat) (t : Bytes) (i : Nat) (s : Bytes) (out : List GoString)
    (h : (readArrayLoop n i s out).ok = true) :
    readArrayLoop n i (s ++ t) out =
      { ok := true, out := (readArrayLoop n i s out).out,
        s := (readArrayLoop n i s out).s ++ t } := by
  induction n generalizing i s out with
  | zero => simp [readArrayLoop]
  | succ n ih =>
    simp only [readArrayLoop] at h ⊢
    cases hr : (ReadString s ((out ++ [[]]).getD i [])).ok with
    | true =>
      rw [ReadString_ext s t _ hr]
      simp only [hr, Bool.not_true, Bool.false_eq_true, if_false] at h ⊢
      exact ih _ _ _ h
    | false =>
      rw [hr] at h
      simp at h

theorem ReadArray_ext (s t : Bytes) (out : List GoString) (h : (ReadArray s out).ok = true) :
    ReadArray (s ++ t) out =
      { ok := true, out := (ReadArray s out).out, s := (ReadArray s out).s ++ t } := by
  unfold ReadArray at h ⊢
  by_cases hk : (readTypeAndArgument s).ok = true
  · rw [readTypeAndArgument_ext s t hk]
    by_cases hm : (readTypeAndArgument s).major = 4
    · simp only [hk, hm, Bool.not_true, bne_self_eq_false, Bool.or_self, Bool.false_eq_true,
        if_false] at h ⊢
      exact readArrayLoop_ext _ t _ _ _ h
    · simp [hk, hm] at h
  · simp [hk] at h

end ctap2cbor

theorem NewIdentityFromData_ext (p t : Bytes) (getPIN : Unit → Except Error GoString)
    (i : Identity) (h : NewIdentityFromData p getPIN = .ok i) (ht : t ≠ []) :
    NewIdentityFromData (p ++ t) getPIN = .error (Error.New "malformed fido2prf identity") := by
  simp only [NewIdentityFromData] at h ⊢
  by_cases h1 : (ctap2cbor.ReadUint p 0).ok = true
  · rw [ctap2cbor.ReadUint_ext p t 0 h1]
    by_cases h1v : (ctap2cbor.ReadUint p 0).out = 1
    · simp only [h1, h1v, Bool.not_true, bne_self_eq_false, Bool.or_self, Bool.false_eq_true,
        if_false] at h ⊢
      by_cases h2 : (ctap2cbor.ReadBytes (ctap2cbor.ReadUint p 0).s []).ok = true
      · rw [ctap2cbor.ReadBytes_ext _ t _ h2]
        simp only [h2, Bool.not_true, Bool.false_eq_true, if_false] at h ⊢
        by_cases h3 : (ctap2cbor.ReadString
            (ctap2cbor.ReadBytes (ctap2cbor.ReadUint p 0).s []).s []).ok = true
        · rw [ctap2cbor.ReadString_ext _ t _ h3]
          simp only [h3, Bool.not_true, Bool.false_eq_true, if_false] at h ⊢
          by_cases h4 : (ctap2cbor.ReadArray (ctap2cbor.ReadString
              (ctap2cbor.ReadBytes (ctap2cbor.ReadUint p 0).s []).s []).s []).ok = true
          · rw [ctap2cbor.ReadArray_ext _ t _ h4]
            simp only [h4, Bool.not_true, Bool.false_eq_true, if_false] at h ⊢
            have : ctap2cbor.Empty ((ctap2cbor.ReadArray (ctap2cbor.ReadString
              (ctap2cbor.ReadBytes (ctap2cbor.ReadUint p 0).s []).s []).s []).s ++ t) = false := by
              cases t with
              | nil => exact absurd rfl ht
              | cons a t => simp [ctap2cbor.Empty]
            simp [this]
          · simp [h4] at h
        · simp [h3] at h
      · simp [h2] at h
    · simp [h1, h1v] at h
  · simp [h1] at h


open ctap2cbor

theorem appendStrings_some (ts : List GoString) (buf r : Bytes)
    (h : appendStrings buf ts = some r) : ∀ t ∈ ts, t.length ≤ 65535 := by
  induction ts generalizing buf with
  | nil => simp
  | cons t ts ih =>
    by_cases ht : t.length ≤ 65535
    · rw [appendStrings, AppendString_eq buf t ht] at h
      intro u hu
      rcases List.mem_cons.mp hu with rfl | hu
      · exact ht
      · exact ih _ h u hu
    · have l : t.length > 0xffff := by omega
      simp [appendStrings, AppendString, l] at h

theorem identityBytes_some (cred : Bytes) (rp : GoString) (ts : List GoString) (e : Bytes)
    (h : identityBytes cred rp ts = some e) :
    cred.length ≤ 65535 ∧ rp.length ≤ 65535 ∧ ts.length ≤ 65535 ∧
      ∀ t ∈ ts, t.length ≤ 65535 := by
  by_cases hc : cred.length ≤ 65535
  · by_cases hr : rp.length ≤ 65535
    · by_cases hn : ts.length ≤ 65535
      · refine ⟨hc, hr, hn, ?_⟩
        simp only [identityBytes, AppendBytes_eq _ cred hc, AppendString_eq _ rp hr,
          AppendArray] at h
        have l : ¬ (ts.length > 0xffff) := by omega
        simp only [l, if_false] at h
        exact appendStrings_some ts _ _ h
      · have l : ts.length > 0xffff := by omega
        simp [identityBytes, AppendBytes_eq _ cred hc, AppendString_eq _ rp hr,
          AppendArray, l] at h
    · have l : rp.length > 0xffff := by omega
      simp [identityBytes, AppendBytes_eq _ cred hc, AppendString, l] at h
  · have l : cred.length > 0xffff := by omega
    simp [identityBytes, AppendBytes, l] at h

theorem NewIdentityFromData_identityBytes (cred : Bytes) (rp : GoString)
    (ts : List GoString) (getPIN : Unit → Except Error GoString)
    (hc : cred.length ≤ 65535) (hr : rp.length ≤ 65535) (hn : ts.length ≤ 65535)
    (ht : ∀ t ∈ ts, t.length ≤ 65535) :
    ∃ e, identityBytes cred rp ts = some e ∧ NewIdentityFromData e getPIN =
      .ok { credentialID := cred, relyingParty := rp, transports := ts, getPIN := getPIN } := by
  refine ⟨_, identityBytes_eq cred rp ts hc hr hn ht, ?_⟩
  have := NewIdentityFromData_enc cred rp ts hc hr hn ht [] getPIN
  simpa using this

/-- C1. Identity record round trip: when the credential identifier, the relying
party and every transport are at most 65535 bytes long and there are at most
65535 transports, the `Append*` calls of `NewCredential` produce a buffer, and
`NewIdentityFromData` accepts that buffer and gives back the same credential
identifier, relying party and transports (empty ones included). -/
theorem identity_round_trip (cred : Bytes) (rp : GoString) (ts : List GoString)
    (getPIN : Unit → Except Error GoString)
    (hc : cred.length ≤ 65535) (hr : rp.length ≤ 65535) (hn : ts.length ≤ 65535)
    (ht : ∀ t ∈ ts, t.length ≤ 65535) :
    ∃ e i, identityBytes cred rp ts = some e ∧ NewIdentityFromData e getPIN = .ok i ∧
      i.credentialID = cred ∧ i.relyingParty = rp ∧ i.transports = ts := by
  obtain ⟨e, he, hi⟩ := NewIdentityFromData_identityBytes cred rp ts getPIN hc hr hn ht
  exact ⟨e, _, he, hi, rfl, rfl, rfl⟩

theorem identity_round_trip_witness :
    ∃ e i, identityBytes [1, 2, 3] (ascii "example.org") [ascii "usb"] = some e ∧
      NewIdentityFromData e pinNone = .ok i ∧
      i.credentialID = [1, 2, 3] ∧ i.relyingParty = ascii "example.org" ∧
      i.transports = [ascii "usb"] :=
  identity_round_trip [1, 2, 3] (ascii "example.org") [ascii "usb"] pinNone
    (by decide) (by decide) (by decide) (by decide)

/-- C2. Trailing bytes are rejected: a record encoding produced by the `Append*`
calls, followed by at least one more byte, makes `NewIdentityFromData` return
the malformed-identity error. -/
theorem trailing_bytes_rejected (cred : Bytes) (rp : GoString) (ts : List GoString)
    (e t : Bytes) (getPIN : Unit → Except Error GoString)
    (he : identityBytes cred rp ts = some e) (ht : t ≠ []) :
    NewIdentityFromData (e ++ t) getPIN =
      .error (Error.New "malformed fido2prf identity") := by
  obtain ⟨hc, hr, hn, hts⟩ := identityBytes_some cred rp ts e he
  obtain ⟨e', he', hi⟩ := NewIdentityFromData_identityBytes cred rp ts getPIN hc hr hn hts
  rw [he] at he'
  cases he'
  exact NewIdentityFromData_ext e t getPIN _ hi ht



/-- Once the version has been read as 1, a failure is the malformed-identity
error. -/
theorem NewIdentityFromData_version_one (b0 : Byte) (p : Bytes)
    (getPIN : Unit → Except Error GoString) (h : b0 = 1) :
    (∃ i, NewIdentityFromData (b0 :: p) getPIN = .ok i) ∨
      NewIdentityFromData (b0 :: p) getPIN =
        .error (Error.New "malformed fido2prf identity") := by
  subst h
  have hv : ReadUint ((1 : Byte) :: p) 0 = { ok := true, out := 1, s := p } := by
    have := ReadUint_hdr 1 p 0 (by decide)
    simpa [hdr, appendTypeAndArgument] using this
  simp only [NewIdentityFromData, hv]
  simp only [Bool.not_true, bne_self_eq_false, Bool.or_self, Bool.false_eq_true, if_false]
  split
  · exact Or.inr rfl
  · split
    · exact Or.inr rfl
    · split
      · exact Or.inr rfl
      · split
        · exact Or.inr rfl
        · exact Or.inl ⟨_, rfl⟩

theorem identityBytes_head (cred : Bytes) (rp : GoString) (ts : List GoString) (e : Bytes)
    (h : identityBytes cred rp ts = some e) : ∃ tl, e = (1 : Byte) :: tl := by
  obtain ⟨hc, hr, hn, hts⟩ := identityBytes_some cred rp ts e h
  rw [identityBytes_eq cred rp ts hc hr hn hts] at h
  cases h
  exact ⟨_, rfl⟩

/-- C3. Truncated buffers are rejected: every proper prefix of a record encoding
produced by the `Append*` calls makes `NewIdentityFromData` return an error,
which is the unsupported-version error for the empty prefix and the
malformed-identity error for every other one. -/
theorem truncated_rejected (cred : Bytes) (rp : GoString) (ts : List GoString)
    (e p : Bytes) (getPIN : Unit → Except Error GoString)
    (he : identityBytes cred rp ts = some e) (hp : p <+: e) (hne : p ≠ e) :
    NewIdentityFromData p getPIN =
      .error (if p = [] then Error.New "unsupported fido2prf version"
        else Error.New "malformed fido2prf identity") := by
  obtain ⟨t, rfl⟩ := hp
  have ht : t ≠ [] := by
    intro h
    exact hne (by simp [h])
  obtain ⟨hc, hr, hn, hts⟩ := identityBytes_some cred rp ts _ he
  obtain ⟨e', he', hi⟩ := NewIdentityFromData_identityBytes cred rp ts getPIN hc hr hn hts
  rw [he] at he'
  cases he'
  have hnot : ∀ i, NewIdentityFromData p getPIN ≠ .ok i := by
    intro i hok
    rw [NewIdentityFromData_ext p t getPIN i hok ht] at hi
    cases hi
  cases p with
  | nil => simp [NewIdentityFromData, ReadUint, readTypeAndArgument]
  | cons b0 p =>
    obtain ⟨tl, htl⟩ := identityBytes_head cred rp ts _ he
    have hb : b0 = 1 := by
      simp only [List.cons_append, List.cons.injEq] at htl
      exact htl.1
    rcases NewIdentityFromData_version_one b0 p getPIN hb with ⟨i, hi'⟩ | herr
    · exact absurd hi' (hnot i)
    · simpa using herr

/-- C4. Unsupported version: when `ReadUint` decodes the first item of the buffer
as a value other than 1, `NewIdentityFromData` returns the unsupported-version
error whatever follows; in particular a buffer that starts with the encoding of
a 16-bit version other than 1 is rejected with that error. -/
theorem unsupported_version :
    (∀ (data : Bytes) (v : Nat) (getPIN : Unit → Except Error GoString),
      (ReadUint data 0).ok = true → (ReadUint data 0).out = v → v ≠ 1 →
        NewIdentityFromData data getPIN = .error (Error.New "unsupported fido2prf version")) ∧
    (∀ (v : Nat) (rest : Bytes) (getPIN : Unit → Except Error GoString),
      v ≤ 65535 → v ≠ 1 →
        NewIdentityFromData (AppendUint [] v ++ rest) getPIN =
          .error (Error.New "unsupported fido2prf version")) := by
  constructor
  · intro data v getPIN hok hv hne
    subst hv
    simp [NewIdentityFromData, hok, hne]
  · intro v rest getPIN hv hne
    have := ReadUint_hdr v rest 0 (by omega)
    simp only [hdr] at this
    simp [NewIdentityFromData, AppendUint, this, hne]

theorem unsupported_version_witness :
    ((ReadUint [2, 0x40] 0).ok = true ∧ (ReadUint [2, 0x40] 0).out = 2 ∧ 2 ≠ 1 ∧
      NewIdentityFromData [2, 0x40] pinNone =
        .error (Error.New "unsupported fido2prf version")) ∧
    ((300 : Nat) ≤ 65535 ∧ (300 : Nat) ≠ 1 ∧
      NewIdentityFromData (AppendUint [] 300 ++ [0x40, 0x60, 0x80]) pinNone =
        .error (Error.New "unsupported fido2prf version")) :=
  ⟨⟨by decide, by decide, by decide,
      unsupported_version.1 [2, 0x40] 2 pinNone (by decide) (by decide) (by decide)⟩,
    ⟨by decide, by decide,
      unsupported_version.2 300 [0x40, 0x60, 0x80] pinNone (by decide) (by decide)⟩⟩

theorem truncated_rejected_witness :
    identityBytes [1, 2, 3] (ascii "example.org") [ascii "usb"] = some exampleRecord ∧
      ([1, 0x43, 1, 2] : Bytes) <+: exampleRecord ∧
      ([1, 0x43, 1, 2] : Bytes) ≠ exampleRecord ∧
      NewIdentityFromData [1, 0x43, 1, 2] pinNone =
        .error (if ([1, 0x43, 1, 2] : Bytes) = [] then Error.New "unsupported fido2prf version"
          else Error.New "malformed fido2prf identity") :=
  ⟨by decide, by decide, by decide,
    truncated_rejected [1, 2, 3] (ascii "example.org") [ascii "usb"] exampleRecord
      [1, 0x43, 1, 2] pinNone
      (by decide) (by decide) (by decide)⟩



theorem major_shift (m : Nat) (hm : m = 0 ∨ m = 2 ∨ m = 3 ∨ m = 4) :
    m <<< 5 % 256 = m <<< 5 ∧ m <<< 5 < 256 := by
  rcases hm with rfl | rfl | rfl | rfl <;> decide

/-- C10. Header encoding rule: for a major type among 0, 2, 3, 4 and a 16-bit
argument `n`, `appendTypeAndArgument` appends to `buf` the byte `(m<<5)|n` when
`n ≤ 23`, the bytes `(m<<5)|24, n` when `24 ≤ n ≤ 255`, and the bytes
`(m<<5)|25, n>>8, n&0xff` (big-endian) when `256 ≤ n`, none of these values being
truncated; `buf` is a prefix of the result, and the number of bytes appended is
that of the shortest form that can hold `n`. -/
theorem header_encoding_rule (m n : Nat) (buf : Bytes)
    (hm : m = 0 ∨ m = 2 ∨ m = 3 ∨ m = 4) (hn : n ≤ 65535) :
    (n ≤ 23 → ∃ h : (m <<< 5 ||| n) < 256,
      appendTypeAndArgument buf m n = buf ++ [⟨m <<< 5 ||| n, h⟩]) ∧
    (24 ≤ n → n ≤ 255 → ∃ h : (m <<< 5 ||| 24) < 256, ∃ hlo : n < 256,
      appendTypeAndArgument buf m n = buf ++ [⟨m <<< 5 ||| 24, h⟩, ⟨n, hlo⟩]) ∧
    (256 ≤ n → ∃ h : (m <<< 5 ||| 25) < 256, ∃ hhi : n >>> 8 < 256, ∃ hlo : n &&& 0xff < 256,
      appendTypeAndArgument buf m n =
        buf ++ [⟨m <<< 5 ||| 25, h⟩, ⟨n >>> 8, hhi⟩, ⟨n &&& 0xff, hlo⟩] ∧
      (n >>> 8) * 256 + (n &&& 0xff) = n) ∧
    buf <+: appendTypeAndArgument buf m n ∧
    (appendTypeAndArgument buf m n).length =
      buf.length + (if n ≤ 23 then 1 else if n ≤ 255 then 2 else 3) := by
  obtain ⟨hs, hlt⟩ := major_shift m hm
  have hor : ∀ k, k < 256 → (m <<< 5 ||| k) < 256 := fun k hk =>
    Nat.or_lt_two_pow (n := 8) hlt hk
  have hand : n &&& 0xff = n % 256 := Nat.and_pow_two_sub_one_eq_mod n 8
  have hshr : n >>> 8 = n / 256 := Nat.shiftRight_eq_div_pow n 8
  refine ⟨?_, ?_, ?_, ?_, ?_⟩
  · intro h1
    refine ⟨hor n (by omega), ?_⟩
    have e : n % 256 = n := by omega
    simp only [appendTypeAndArgument, h1, if_true, hs, e, toUint8]
    congr 2
    apply Fin.ext
    exact Nat.mod_eq_of_lt (hor n (by omega))
  · intro h1 h2
    refine ⟨hor 24 (by decide), by omega, ?_⟩
    have h1' : ¬ n ≤ 23 := by omega
    have h2' : n ≤ 0xff := h2
    simp only [appendTypeAndArgument, h1', h2', if_true, if_false, hs, toUint8]
    congr 2
    · apply Fin.ext
      exact Nat.mod_eq_of_lt (hor 24 (by decide))
    · congr 1
      apply Fin.ext
      exact Nat.mod_eq_of_lt (by omega)
  · intro h1
    refine ⟨hor 25 (by decide), by omega, by omega, ?_, by omega⟩
    have h1' : ¬ n ≤ 23 := by omega
    have h2' : ¬ n ≤ 0xff := by omega
    simp only [appendTypeAndArgument, h1', h2', if_false, hs, toUint8]
    congr 2
    · apply Fin.ext
      exact Nat.mod_eq_of_lt (hor 25 (by decide))
    · congr 1
      · apply Fin.ext
        exact Nat.mod_eq_of_lt (by omega)
      · congr 1
        apply Fin.ext
        show n % 256 = n &&& 0xff
        exact hand.symm
  · rw [appendTypeAndArgument_eq_append]
    exact List.prefix_append _ _
  · unfold appendTypeAndArgument
    split
    · simp
    · split <;> simp

theorem header_encoding_rule_witness :
    ((3 : Nat) = 0 ∨ (3 : Nat) = 2 ∨ (3 : Nat) = 3 ∨ (3 : Nat) = 4) ∧ (300 : Nat) ≤ 65535 ∧
    ((300 ≤ 23 → ∃ h : (3 <<< 5 ||| 300) < 256,
      appendTypeAndArgument [7] 3 300 = [7] ++ [⟨3 <<< 5 ||| 300, h⟩]) ∧
    (24 ≤ 300 → 300 ≤ 255 → ∃ h : (3 <<< 5 ||| 24) < 256, ∃ hlo : 300 < 256,
      appendTypeAndArgument [7] 3 300 = [7] ++ [⟨3 <<< 5 ||| 24, h⟩, ⟨300, hlo⟩]) ∧
    (256 ≤ 300 → ∃ h : (3 <<< 5 ||| 25) < 256, ∃ hhi : 300 >>> 8 < 256,
      ∃ hlo : 300 &&& 0xff < 256,
      appendTypeAndArgument [7] 3 300 =
        [7] ++ [⟨3 <<< 5 ||| 25, h⟩, ⟨300 >>> 8, hhi⟩, ⟨300 &&& 0xff, hlo⟩] ∧
      (300 >>> 8) * 256 + (300 &&& 0xff) = 300) ∧
    ([7] : Bytes) <+: appendTypeAndArgument [7] 3 300 ∧
    (appendTypeAndArgument [7] 3 300).length =
      ([7] : Bytes).length + (if 300 ≤ 23 then 1 else if 300 ≤ 255 then 2 else 3)) :=
  ⟨by decide, by decide, header_encoding_rule 3 300 [7] (by decide) (by decide)⟩

theorem trailing_bytes_rejected_witness :
    identityBytes [1, 2, 3] (ascii "example.org") [ascii "usb"] = some exampleRecord ∧
      ([0] : Bytes) ≠ [] ∧
      NewIdentityFromData (exampleRecord ++ [0]) pinNone =
        .error (Error.New "malformed fido2prf identity") :=
  ⟨by decide, by decide,
    trailing_bytes_rejected [1, 2, 3] (ascii "example.org") [ascii "usb"] exampleRecord [0]
      pinNone (by decide) (by decide)⟩

/-! ## The protocol -/

theorem Unwrap_skip (env : Env) (i : Identity) (s : Stanza) (rest : List Stanza)
    (h : s.Type_ ≠ label) :
    Identity.Unwrap env i (s :: rest) = Identity.Unwrap env i rest := by
  simp [Identity.Unwrap, h]

theorem Unwrap_skip_all (env : Env) (i : Identity) (pre rest : List Stanza)
    (h : NoStanzaOfScheme pre) :
    Identity.Unwrap env i (pre ++ rest) = Identity.Unwrap env i rest := by
  induction pre with
  | nil => rfl
  | cons p pre ih =>
    have hp : p.Type_ ≠ label := h p (List.mem_cons_self _ _)
    have hpre : NoStanzaOfScheme pre := fun q hq => h q (List.mem_cons_of_mem _ hq)
    rw [List.cons_append, Unwrap_skip env i p _ hp, ih hpre]

/-- What `Unwrap` does with a well-formed stanza of its scheme, in terms of the
hardware call and of the opening of the body. -/
theorem Unwrap_wellformed (env : Env) (i : Identity) (s : Stanza) (rest : List Stanza)
    (arg : GoString) (nonce : Bytes) (hty : s.Type_ = label) (hargs : s.Args = [arg])
    (hdec : env.base64Decode arg = .ok nonce) (hlen : nonce.length = 16) :
    Identity.Unwrap env i (s :: rest) =
      match (Identity.assert env i nonce).1 with
      | .error err => (.error err, (Identity.assert env i nonce).2)
      | .ok secret =>
        match aeadDecrypt env (env.hkdfExtract secret label) 16 s.Body with
        | .error _ => Eff.after (Identity.assert env i nonce).2 (Identity.Unwrap env i rest)
        | .ok fileKey => (.ok fileKey, (Identity.assert env i nonce).2) := by
  simp [Identity.Unwrap, hty, hargs, hdec, hlen]

/-- C5. Wrap then Unwrap round trip: for a 16-byte file key and any 16-byte
nonce drawn by `Wrap`, when the hardware call for that nonce succeeds (the
hardware being a function of its inputs), base64 decoding inverts encoding on
the nonce, and the cipher built from the derived key adds its overhead to the
length and opens what it sealed, `Wrap` returns a stanza list and `Unwrap` of
that list returns the file key. -/
theorem wrap_unwrap_round_trip (env : Env) (i : Identity) (fileKey nonce secret : Bytes)
    (aead : AEAD)
    (hkey : fileKey.length = 16)
    (hrand : env.randRead 16 = .ok nonce) (hnonce : nonce.length = 16)
    (hb64 : env.base64Decode (env.base64Encode nonce) = .ok nonce)
    (hassert : (Identity.assert env i nonce).1 = .ok secret)
    (hnew : env.chacha20poly1305New (env.hkdfExtract secret label) = .ok aead)
    (hlen : (aead.Seal [] (zeros 12) fileKey []).length = fileKey.length + aead.Overhead)
    (hopen : aead.Open [] (zeros 12) (aead.Seal [] (zeros 12) fileKey []) [] = .ok fileKey) :
    ∃ stanzas, (Identity.Wrap env i fileKey).1 = .ok stanzas ∧
      (Identity.Unwrap env i stanzas).1 = .ok fileKey := by
  refine ⟨[{ Type_ := label, Args := [env.base64Encode nonce],
             Body := aead.Seal [] (zeros 12) fileKey [] }], ?_, ?_⟩
  · simp [Identity.Wrap, hrand, hassert, aeadEncrypt, hnew, chacha20poly1305.NonceSize]
  · rw [Unwrap_wellformed env i _ [] (env.base64Encode nonce) nonce rfl rfl hb64 hnonce]
    simp [hassert, aeadDecrypt, hnew, chacha20poly1305.NonceSize, hlen, hkey, hopen]

theorem wrap_unwrap_round_trip_witness :
    Sample.fileKey.length = 16 ∧
    (Sample.env Sample.nonce).randRead 16 = .ok Sample.nonce ∧ Sample.nonce.length = 16 ∧
    (Sample.env Sample.nonce).base64Decode ((Sample.env Sample.nonce).base64Encode Sample.nonce) =
      .ok Sample.nonce ∧
    (Identity.assert (Sample.env Sample.nonce) Sample.identity Sample.nonce).1 =
      .ok Sample.secret ∧
    (Sample.env Sample.nonce).chacha20poly1305New
      ((Sample.env Sample.nonce).hkdfExtract Sample.secret label) = .ok (Sample.aead Sample.key) ∧
    ((Sample.aead Sample.key).Seal [] (zeros 12) Sample.fileKey []).length =
      Sample.fileKey.length + (Sample.aead Sample.key).Overhead ∧
    (Sample.aead Sample.key).Open [] (zeros 12)
      ((Sample.aead Sample.key).Seal [] (zeros 12) Sample.fileKey []) [] = .ok Sample.fileKey ∧
    ∃ stanzas, (Identity.Wrap (Sample.env Sample.nonce) Sample.identity Sample.fileKey).1 =
        .ok stanzas ∧
      (Identity.Unwrap (Sample.env Sample.nonce) Sample.identity stanzas).1 =
        .ok Sample.fileKey :=
  ⟨by decide, by rfl, by decide, by rfl, by rfl, by rfl, by rfl, by rfl,
    wrap_unwrap_round_trip (Sample.env Sample.nonce) Sample.identity Sample.fileKey Sample.nonce
      Sample.secret (Sample.aead Sample.key)
      (by decide) (by rfl) (by decide) (by rfl) (by rfl) (by rfl) (by rfl) (by rfl)⟩

theorem assertLoop_noCredential (env : Env) (i : Identity) (nonce : Bytes)
    (locs : List DeviceLocation)
    (h : ∀ loc ∈ locs, ∃ device, env.NewDevice loc.Path = .ok device ∧
      env.Assertion device i.relyingParty (zeros 32) [i.credentialID] [] probeOpts =
        .error Error.ErrNoCredentials) :
    (assertLoop env i nonce locs).1 =
      .error (Error.New "identity doesn't match any FIDO2 device") ∧
    Event.getPIN ∉ (assertLoop env i nonce locs).2 := by
  induction locs with
  | nil => simp [assertLoop]
  | cons loc locs ih =>
    obtain ⟨device, hdev, hprobe⟩ := h loc (List.mem_cons_self _ _)
    have ih := ih (fun l hl => h l (List.mem_cons_of_mem _ hl))
    simp only [probeOpts] at hprobe
    simp only [assertLoop, hdev, hprobe, if_true, Eff.after]
    exact ⟨ih.1, by simp [ih.2]⟩

theorem assert_noCredential (env : Env) (i : Identity) (nonce : Bytes)
    (locs : List DeviceLocation) (h : NoCredentialOnAnyDevice env i locs) :
    (Identity.assert env i nonce).1 =
      .error (if locs = [] then Error.New "no FIDO2 devices found"
        else Error.New "identity doesn't match any FIDO2 device") ∧
    Event.getPIN ∉ (Identity.assert env i nonce).2 := by
  obtain ⟨hlocs, hall⟩ := h
  cases locs with
  | nil => simp [Identity.assert, hlocs]
  | cons loc locs =>
    have := assertLoop_noCredential env i nonce (loc :: locs) hall
    simp only [Identity.assert, hlocs, List.length_cons, Nat.add_one_ne_zero, if_false,
      Eff.after]
    exact ⟨by simpa using this.1, by simp [this.2]⟩

/-- What `Unwrap` returns for a stanza of its scheme is never
`ErrIncorrectIdentity` when no device holds the credential. -/
theorem Unwrap_cons_noCredential (env : Env) (i : Identity) (locs : List DeviceLocation)
    (h : NoCredentialOnAnyDevice env i locs) (s : Stanza) (rest : List Stanza)
    (hty : s.Type_ = label) :
    (Identity.Unwrap env i (s :: rest)).1 ≠ .error Error.ErrIncorrectIdentity := by
  simp only [Identity.Unwrap, hty, ne_eq, not_true_eq_false, if_false]
  split
  · simp
  · split
    · simp
    · rename_i nonce _
      split
      · simp
      · have ha := (assert_noCredential env i nonce locs h).1
        simp only [ha]
        split <;> simp

/-- C6, as the code has it. When every enumerated device answers the probe with
"no such credential", `Unwrap` over a list whose first stanza of this scheme's
type is well-formed (one argument decoding to 16 bytes) fails with the error of
the hardware call, "identity doesn't match any FIDO2 device" ("no FIDO2 devices
found" when no device is enumerated); the result is `age.ErrIncorrectIdentity`
exactly when the list holds no stanza of this scheme's type. -/
theorem unwrap_no_credential (env : Env) (i : Identity) (locs : List DeviceLocation)
    (h : NoCredentialOnAnyDevice env i locs) :
    (∀ (pre rest : List Stanza) (s : Stanza) (arg : GoString) (nonce : Bytes),
      NoStanzaOfScheme pre → s.Type_ = label → s.Args = [arg] →
      env.base64Decode arg = .ok nonce → nonce.length = 16 →
        (Identity.Unwrap env i (pre ++ s :: rest)).1 =
          .error (if locs = [] then Error.New "no FIDO2 devices found"
            else Error.New "identity doesn't match any FIDO2 device")) ∧
    (∀ stanzas : List Stanza,
      (Identity.Unwrap env i stanzas).1 = .error Error.ErrIncorrectIdentity ↔
        NoStanzaOfScheme stanzas) := by
  constructor
  · intro pre rest s arg nonce hpre hty hargs hdec hlen
    rw [Unwrap_skip_all env i pre _ hpre,
      Unwrap_wellformed env i s rest arg nonce hty hargs hdec hlen,
      (assert_noCredential env i nonce locs h).1]
  · intro stanzas
    induction stanzas with
    | nil => simp [Identity.Unwrap, NoStanzaOfScheme]
    | cons s rest ih =>
      by_cases hty : s.Type_ = label
      · constructor
        · intro hres
          exact absurd hres (Unwrap_cons_noCredential env i locs h s rest hty)
        · intro hno
          exact absurd hty (hno s (List.mem_cons_self _ _))
      · rw [Unwrap_skip env i s rest hty, ih]
        constructor
        · intro hno p hp
          rcases List.mem_cons.mp hp with rfl | hp
          · exact hty
          · exact hno p hp
        · intro hno p hp
          exact hno p (List.mem_cons_of_mem _ hp)

theorem sample_stranger_noCredential :
    NoCredentialOnAnyDevice (Sample.env Sample.nonce) Sample.stranger
      [{ Path := ascii "/dev/hidraw0" }, { Path := ascii "/dev/hidraw1" }] := by
  refine ⟨rfl, ?_⟩
  intro loc hloc
  rcases List.mem_cons.mp hloc with rfl | hloc
  · exact ⟨{ handle := 0 }, by rfl, by rfl⟩
  · rcases List.mem_cons.mp hloc with rfl | hloc
    · exact ⟨{ handle := 1 }, by rfl, by rfl⟩
    · cases hloc

/-- C6 fails as stated: no device of the stand-in environment holds the
credential of `Sample.stranger`, the stanza is well-formed with a 16-byte nonce,
and `Unwrap` returns "identity doesn't match any FIDO2 device", which is not
`age.ErrIncorrectIdentity`. -/
theorem unwrap_no_credential_counterexample :
    NoCredentialOnAnyDevice (Sample.env Sample.nonce) Sample.stranger
      [{ Path := ascii "/dev/hidraw0" }, { Path := ascii "/dev/hidraw1" }] ∧
    Sample.stanza.Type_ = label ∧ Sample.stanza.Args = [ascii "AAECAwQFBgcICQoLDA0ODw"] ∧
    (Sample.env Sample.nonce).base64Decode (ascii "AAECAwQFBgcICQoLDA0ODw") =
      .ok Sample.nonce ∧ Sample.nonce.length = 16 ∧
    (Identity.Unwrap (Sample.env Sample.nonce) Sample.stranger [Sample.stanza]).1 =
      .error (Error.New "identity doesn't match any FIDO2 device") ∧
    (Identity.Unwrap (Sample.env Sample.nonce) Sample.stranger [Sample.stanza]).1 ≠
      .error Error.ErrIncorrectIdentity :=
  ⟨sample_stranger_noCredential, by rfl, by rfl, by rfl, by decide, by rfl, by decide⟩

theorem unwrap_no_credential_witness :
    NoCredentialOnAnyDevice (Sample.env Sample.nonce) Sample.stranger
      [{ Path := ascii "/dev/hidraw0" }, { Path := ascii "/dev/hidraw1" }] ∧
    ((∀ (pre rest : List Stanza) (s : Stanza) (arg : GoString) (nonce : Bytes),
      NoStanzaOfScheme pre → s.Type_ = label → s.Args = [arg] →
      (Sample.env Sample.nonce).base64Decode arg = .ok nonce → nonce.length = 16 →
        (Identity.Unwrap (Sample.env Sample.nonce) Sample.stranger (pre ++ s :: rest)).1 =
          .error (if ([{ Path := ascii "/dev/hidraw0" }, { Path := ascii "/dev/hidraw1" }] :
              List DeviceLocation) = [] then Error.New "no FIDO2 devices found"
            else Error.New "identity doesn't match any FIDO2 device")) ∧
    (∀ stanzas : List Stanza,
      (Identity.Unwrap (Sample.env Sample.nonce) Sample.stranger stanzas).1 =
          .error Error.ErrIncorrectIdentity ↔
        NoStanzaOfScheme stanzas)) :=
  ⟨sample_stranger_noCredential,
    unwrap_no_credential (Sample.env Sample.nonce) Sample.stranger _
      sample_stranger_noCredential⟩


/-- A stanza that `Unwrap` opens on its own is opened whatever follows it. -/
theorem Unwrap_first_opens (env : Env) (i : Identity) (v : Stanza) (rest : List Stanza)
    (fk : Bytes) (hty : v.Type_ = label) (h : (Identity.Unwrap env i [v]).1 = .ok fk) :
    Identity.Unwrap env i (v :: rest) = Identity.Unwrap env i [v] := by
  by_cases hargs : v.Args.length = 1
  · cases hdec : env.base64Decode (v.Args.getD 0 []) with
    | error e =>
      simp only [Identity.Unwrap, hty, hargs, hdec, ne_eq, not_true_eq_false, if_false]
    | ok nonce =>
      by_cases hlen : nonce.length = 16
      · cases hsec : (Identity.assert env i nonce).1 with
        | error e =>
          simp only [Identity.Unwrap, hty, hargs, hdec, hlen, hsec, ne_eq, not_true_eq_false,
            if_false]
        | ok secret =>
          cases hopen : aeadDecrypt env (env.hkdfExtract secret label) 16 v.Body with
          | error e =>
            simp only [Identity.Unwrap, hty, hargs, hdec, hlen, hsec, hopen, ne_eq,
              not_true_eq_false, if_false, Eff.after] at h
            cases h
          | ok fk2 =>
            simp only [Identity.Unwrap, hty, hargs, hdec, hlen, hsec, hopen, ne_eq,
              not_true_eq_false, if_false]
      · simp only [Identity.Unwrap, hty, hargs, hdec, hlen, ne_eq, not_true_eq_false,
          not_false_eq_true, if_true, if_false]
  · simp only [Identity.Unwrap, hty, hargs, ne_eq, not_true_eq_false, not_false_eq_true,
      if_true, if_false]

/-- C7. Stanzas of another scheme are skipped: when the type of `s` is not the
label, `Unwrap (s :: rest)` has the result and the hardware calls of
`Unwrap rest`; hence a list made of such a stanza and of a stanza of the scheme
that `Unwrap` opens to `fk`, in either order, gives `fk` with the hardware calls
made for the matching stanza alone. -/
theorem other_scheme_skipped :
    (∀ (env : Env) (i : Identity) (s : Stanza) (rest : List Stanza),
      s.Type_ ≠ label → Identity.Unwrap env i (s :: rest) = Identity.Unwrap env i rest) ∧
    (∀ (env : Env) (i : Identity) (s v : Stanza) (fk : Bytes),
      s.Type_ ≠ label → v.Type_ = label → (Identity.Unwrap env i [v]).1 = .ok fk →
        (Identity.Unwrap env i [s, v]).1 = .ok fk ∧
        (Identity.Unwrap env i [v, s]).1 = .ok fk ∧
        (Identity.Unwrap env i [s, v]).2 = (Identity.Unwrap env i [v]).2 ∧
        (Identity.Unwrap env i [v, s]).2 = (Identity.Unwrap env i [v]).2) := by
  constructor
  · intro env i s rest h
    exact Unwrap_skip env i s rest h
  · intro env i s v fk hs hv h
    rw [Unwrap_skip env i s [v] hs, Unwrap_first_opens env i v [s] fk hv h]
    exact ⟨h, h, rfl, rfl⟩

theorem other_scheme_skipped_witness :
    (Sample.otherStanza.Type_ ≠ label ∧
      Identity.Unwrap (Sample.env Sample.nonce) Sample.identity
          [Sample.otherStanza, Sample.tampered] =
        Identity.Unwrap (Sample.env Sample.nonce) Sample.identity [Sample.tampered]) ∧
    (Sample.otherStanza.Type_ ≠ label ∧ Sample.stanza.Type_ = label ∧
      (Identity.Unwrap (Sample.env Sample.nonce) Sample.identity [Sample.stanza]).1 =
        .ok Sample.fileKey ∧
      (Identity.Unwrap (Sample.env Sample.nonce) Sample.identity
        [Sample.otherStanza, Sample.stanza]).1 = .ok Sample.fileKey ∧
      (Identity.Unwrap (Sample.env Sample.nonce) Sample.identity
        [Sample.stanza, Sample.otherStanza]).1 = .ok Sample.fileKey) :=
  ⟨⟨by decide, other_scheme_skipped.1 (Sample.env Sample.nonce) Sample.identity
      Sample.otherStanza [Sample.tampered] (by decide)⟩,
    ⟨by decide, by rfl, by rfl,
      (other_scheme_skipped.2 (Sample.env Sample.nonce) Sample.identity Sample.otherStanza
        Sample.stanza Sample.fileKey (by decide) (by rfl) (by rfl)).1,
      (other_scheme_skipped.2 (Sample.env Sample.nonce) Sample.identity Sample.otherStanza
        Sample.stanza Sample.fileKey (by decide) (by rfl) (by rfl)).2.1⟩⟩

theorem Unwrap_openFails (env : Env) (i : Identity) (s : Stanza) (rest : List Stanza)
    (h : OpenFails env i s) :
    (Identity.Unwrap env i (s :: rest)).1 = (Identity.Unwrap env i rest).1 := by
  obtain ⟨arg, nonce, secret, err, hty, hargs, hdec, hlen, hassert, hopen⟩ := h
  rw [Unwrap_wellformed env i s rest arg nonce hty hargs hdec hlen]
  simp [hassert, hopen, Eff.after]

/-- C8. Authentication failure is not fatal: for a well-formed stanza of the
scheme whose hardware call succeeds and whose body does not open under the
derived key, `Unwrap (s :: rest)` has the result of `Unwrap rest`; and when every
stanza of the list is either of another scheme or such a stanza (the empty list
included), `Unwrap` returns `age.ErrIncorrectIdentity`. -/
theorem authentication_failure_not_fatal :
    (∀ (env : Env) (i : Identity) (s : Stanza) (rest : List Stanza),
      OpenFails env i s →
        (Identity.Unwrap env i (s :: rest)).1 = (Identity.Unwrap env i rest).1) ∧
    (∀ (env : Env) (i : Identity) (stanzas : List Stanza),
      (∀ s ∈ stanzas, s.Type_ ≠ label ∨ OpenFails env i s) →
        (Identity.Unwrap env i stanzas).1 = .error Error.ErrIncorrectIdentity) := by
  constructor
  · intro env i s rest h
    exact Unwrap_openFails env i s rest h
  · intro env i stanzas h
    induction stanzas with
    | nil => rfl
    | cons s rest ih =>
      have ih := ih (fun t ht => h t (List.mem_cons_of_mem _ ht))
      rcases h s (List.mem_cons_self _ _) with hs | hs
      · rw [Unwrap_skip env i s rest hs]
        exact ih
      · rw [Unwrap_openFails env i s rest hs]
        exact ih

theorem sample_tampered_openFails :
    OpenFails (Sample.env Sample.nonce) Sample.identity Sample.tampered :=
  ⟨ascii "AAECAwQFBgcICQoLDA0ODw", Sample.nonce, Sample.secret,
    Error.New "chacha20poly1305: message authentication failed",
    by rfl, by rfl, by rfl, by decide, by rfl, by rfl⟩

theorem authentication_failure_not_fatal_witness :
    (OpenFails (Sample.env Sample.nonce) Sample.identity Sample.tampered ∧
      (Identity.Unwrap (Sample.env Sample.nonce) Sample.identity
          [Sample.tampered, Sample.stanza]).1 =
        (Identity.Unwrap (Sample.env Sample.nonce) Sample.identity [Sample.stanza]).1) ∧
    ((∀ s ∈ [Sample.otherStanza, Sample.tampered],
        s.Type_ ≠ label ∨ OpenFails (Sample.env Sample.nonce) Sample.identity s) ∧
      (Identity.Unwrap (Sample.env Sample.nonce) Sample.identity
        [Sample.otherStanza, Sample.tampered]).1 = .error Error.ErrIncorrectIdentity) :=
  have h : ∀ s ∈ [Sample.otherStanza, Sample.tampered],
      s.Type_ ≠ label ∨ OpenFails (Sample.env Sample.nonce) Sample.identity s := by
    intro s hs
    rcases List.mem_cons.mp hs with rfl | hs
    · exact Or.inl (by decide)
    · rcases List.mem_cons.mp hs with rfl | hs
      · exact Or.inr sample_tampered_openFails
      · cases hs
  ⟨⟨sample_tampered_openFails,
      authentication_failure_not_fatal.1 (Sample.env Sample.nonce) Sample.identity
        Sample.tampered [Sample.stanza] sample_tampered_openFails⟩,
    ⟨h, authentication_failure_not_fatal.2 (Sample.env Sample.nonce) Sample.identity
      [Sample.otherStanza, Sample.tampered] h⟩⟩

/-- What `Unwrap` does when the first stanza of its scheme has an argument count
other than 1 or an argument that the decoder does not turn into 16 bytes. -/
theorem Unwrap_malformed (env : Env) (i : Identity) (pre rest : List Stanza)
    (s : Stanza) (hpre : NoStanzaOfScheme pre) (hty : s.Type_ = label)
    (hbad : s.Args.length ≠ 1 ∨
      ∀ nonce, env.base64Decode (s.Args.getD 0 []) = .ok nonce → nonce.length ≠ 16) :
    Identity.Unwrap env i (pre ++ s :: rest) =
        (.error (if s.Args.length ≠ 1 then
            Error.New "fido2prf: invalid stanza: expected 1 argument"
          else Error.New "fido2prf: invalid nonce"), []) ∧
      (∀ fk, (Identity.Unwrap env i (pre ++ s :: rest)).1 ≠ .ok fk) ∧
      (Identity.Unwrap env i (pre ++ s :: rest)).1 ≠ .error Error.ErrIncorrectIdentity := by
  have key : Identity.Unwrap env i (pre ++ s :: rest) =
      (.error (if s.Args.length ≠ 1 then
          Error.New "fido2prf: invalid stanza: expected 1 argument"
        else Error.New "fido2prf: invalid nonce"), []) := by
    rw [Unwrap_skip_all env i pre _ hpre]
    simp only [Identity.Unwrap, hty, ne_eq, not_true_eq_false, if_false]
    by_cases hargs : s.Args.length = 1
    · have hdec : ∀ nonce, env.base64Decode (s.Args.getD 0 []) = .ok nonce →
          nonce.length ≠ 16 := by
        rcases hbad with h | h
        · exact absurd hargs h
        · exact h
      simp only [hargs, not_true_eq_false, if_false]
      split
      · rfl
      · rename_i nonce hn
        simp [hdec nonce hn]
    · simp [hargs]
  refine ⟨key, ?_, ?_⟩
  · intro fk
    rw [key]
    simp
  · rw [key]
    split <;> simp

/-- C9, as the code has it. Malformed stanza aborts: when the first stanza of this
scheme's type in the list has an argument count other than 1, or a single
argument that the strict unpadded base64 decoder does not decode to exactly 16
bytes, `Unwrap` returns the matching malformed-stanza error with no hardware
call at all, whatever follows in the list; the result is neither a file key nor
`age.ErrIncorrectIdentity`. For a decoder that only decodes encodings, up to the
line breaks it skips, this is the case as soon as the argument without its
carriage returns and line feeds is not the encoding of exactly 16 bytes. -/
theorem malformed_stanza_aborts (env : Env) (i : Identity) (pre rest : List Stanza)
    (s : Stanza) (hpre : NoStanzaOfScheme pre) (hty : s.Type_ = label)
    (hbad : s.Args.length ≠ 1 ∨
      (∀ nonce, env.base64Decode (s.Args.getD 0 []) = .ok nonce → nonce.length ≠ 16) ∨
      (Base64Sound env ∧
        ∀ b : Bytes, b.length = 16 → stripLineBreaks (s.Args.getD 0 []) ≠ env.base64Encode b)) :
    Identity.Unwrap env i (pre ++ s :: rest) =
        (.error (if s.Args.length ≠ 1 then
            Error.New "fido2prf: invalid stanza: expected 1 argument"
          else Error.New "fido2prf: invalid nonce"), []) ∧
      (∀ fk, (Identity.Unwrap env i (pre ++ s :: rest)).1 ≠ .ok fk) ∧
      (Identity.Unwrap env i (pre ++ s :: rest)).1 ≠ .error Error.ErrIncorrectIdentity := by
  apply Unwrap_malformed env i pre rest s hpre hty
  rcases hbad with h | h | ⟨hsound, hform⟩
  · exact Or.inl h
  · exact Or.inr h
  · right
    intro nonce hdec hlen
    exact hform nonce hlen (hsound _ nonce hdec)

theorem sample_no_stanza_of_scheme : NoStanzaOfScheme [Sample.otherStanza] := by
  intro p hp
  rcases List.mem_cons.mp hp with rfl | hp
  · decide
  · cases hp

theorem sample_padded_argument (nonce : Bytes)
    (h : (Sample.env Sample.nonce).base64Decode (Sample.padded.Args.getD 0 []) = .ok nonce) :
    nonce.length ≠ 16 := by
  have e : (Sample.env Sample.nonce).base64Decode (Sample.padded.Args.getD 0 []) =
      .error (Error.New "illegal base64 data") := by rfl
  rw [e] at h
  cases h

set_option maxRecDepth 100000 in
theorem Sample.enc6_indexOf : ∀ c : Byte,
    Sample.alphabet.indexOf c < 64 → Sample.enc6 (Sample.alphabet.indexOf c) = c := by
  decide

theorem Sample.dec6_some (c : Byte) (v : Nat) (h : Sample.dec6 c = some v) :
    Sample.enc6 v = c ∧ v < 64 := by
  simp only [Sample.dec6] at h
  by_cases hk : Sample.alphabet.indexOf c < 64
  · simp only [hk, if_true, Option.some.injEq] at h
    subst h
    exact ⟨Sample.enc6_indexOf c hk, hk⟩
  · simp [hk] at h

theorem Sample.decodeStrict_sound (s : GoString) :
    ∀ b, Sample.decodeStrict s = .ok b → s = Sample.base64Encode b := by
  induction s using Sample.decodeStrict.induct with
  | case1 w x y z rest w1 x1 y1 z1 tl hrest hz hy hx hw ih =>
    intro b h
    simp only [Sample.decodeStrict, hw, hx, hy, hz, hrest, Except.ok.injEq] at h
    subst h
    obtain ⟨ew, lw⟩ := Sample.dec6_some w w1 hw
    obtain ⟨ex, lx⟩ := Sample.dec6_some x x1 hx
    obtain ⟨ey, ly⟩ := Sample.dec6_some y y1 hy
    obtain ⟨ez, lz⟩ := Sample.dec6_some z z1 hz
    have e1 : (w1 * 4 + x1 / 16) % 256 / 4 = w1 := by omega
    have e2 : (w1 * 4 + x1 / 16) % 256 % 4 * 16 + (x1 % 16 * 16 + y1 / 4) % 256 / 16 = x1 := by
      omega
    have e3 : (x1 % 16 * 16 + y1 / 4) % 256 % 16 * 4 + (y1 % 4 * 64 + z1) % 256 / 64 = y1 := by
      omega
    have e4 : (y1 % 4 * 64 + z1) % 256 % 64 = z1 := by omega
    simp only [Sample.base64Encode, toUint8, e1, e2, e3, e4, ew, ex, ey, ez, ← ih tl hrest]
  | case2 w x y z rest hneg ih =>
    intro b h
    simp only [Sample.decodeStrict] at h
    cases h
  | case3 w x y w1 x1 y1 hy hx hw hmod =>
    intro b h
    simp only [Sample.decodeStrict, hw, hx, hy, hmod, if_true, Except.ok.injEq] at h
    subst h
    obtain ⟨ew, lw⟩ := Sample.dec6_some w w1 hw
    obtain ⟨ex, lx⟩ := Sample.dec6_some x x1 hx
    obtain ⟨ey, ly⟩ := Sample.dec6_some y y1 hy
    have e1 : (w1 * 4 + x1 / 16) % 256 / 4 = w1 := by omega
    have e2 : (w1 * 4 + x1 / 16) % 256 % 4 * 16 + (x1 % 16 * 16 + y1 / 4) % 256 / 16 = x1 := by
      omega
    have e3 : (x1 % 16 * 16 + y1 / 4) % 256 % 16 * 4 = y1 := by omega
    simp only [Sample.base64Encode, toUint8, e1, e2, e3, ew, ex, ey]
  | case4 w x y w1 x1 y1 hy hx hw hmod =>
    intro b h
    simp [Sample.decodeStrict, hw, hx, hy, hmod] at h
  | case5 w x y hneg =>
    intro b h
    simp only [Sample.decodeStrict] at h
    cases h
  | case6 w x w1 x1 hx hw hmod =>
    intro b h
    simp only [Sample.decodeStrict, hw, hx, hmod, if_true, Except.ok.injEq] at h
    subst h
    obtain ⟨ew, lw⟩ := Sample.dec6_some w w1 hw
    obtain ⟨ex, lx⟩ := Sample.dec6_some x x1 hx
    have e1 : (w1 * 4 + x1 / 16) % 256 / 4 = w1 := by omega
    have e2 : (w1 * 4 + x1 / 16) % 256 % 4 * 16 = x1 := by omega
    simp only [Sample.base64Encode, toUint8, e1, e2, ew, ex]
  | case7 w x w1 x1 hx hw hmod =>
    intro b h
    simp [Sample.decodeStrict, hw, hx, hmod] at h
  | case8 w x hneg =>
    intro b h
    simp only [Sample.decodeStrict] at h
    cases h
  | case9 head =>
    intro b h
    simp [Sample.decodeStrict] at h
  | case10 =>
    intro b h
    simp only [Sample.decodeStrict, Except.ok.injEq] at h
    subst h
    rfl

theorem Sample.base64Sound (nonce : Bytes) : Base64Sound (Sample.env nonce) := by
  intro arg b h
  exact Sample.decodeStrict_sound (stripLineBreaks arg) b h

theorem Sample.base64Encode_length (b : Bytes) :
    (Sample.base64Encode b).length = (4 * b.length + 2) / 3 := by
  induction b using Sample.base64Encode.induct with
  | case1 a b c rest ih =>
    simp only [Sample.base64Encode, List.length_cons, ih]
    omega
  | case2 a b => simp [Sample.base64Encode]
  | case3 a => simp [Sample.base64Encode]
  | case4 => simp [Sample.base64Encode]

/-- The encoding of 16 bytes has 22 characters. -/
theorem Sample.not_an_encoding (arg : GoString) (hlen : arg.length ≠ 22) (b : Bytes)
    (h : b.length = 16) : arg ≠ (Sample.env Sample.nonce).base64Encode b := by
  intro he
  have hl := Sample.base64Encode_length b
  rw [h] at hl
  apply hlen
  rw [he]
  exact hl

/-- C9 fails as stated: the single argument of `Sample.newlineArg` ends in a line
feed, so it is not the strict unpadded base64 encoding of 16 bytes (such an
encoding has 22 characters, all of the alphabet), yet the decoder skips the line
feed, and `Unwrap` calls the hardware and returns the file key instead of a
malformed-stanza error. -/
theorem malformed_stanza_aborts_counterexample :
    Sample.newlineArg.Type_ = label ∧
    Sample.newlineArg.Args = [ascii "AAECAwQFBgcICQoLDA0ODw" ++ [0x0a]] ∧
    (0x0a : Byte) ∉ Sample.alphabet ∧
    (∀ b : Bytes, b.length = 16 →
      ascii "AAECAwQFBgcICQoLDA0ODw" ++ [0x0a] ≠ (Sample.env Sample.nonce).base64Encode b) ∧
    (Sample.env Sample.nonce).base64Decode (ascii "AAECAwQFBgcICQoLDA0ODw" ++ [0x0a]) =
      .ok Sample.nonce ∧
    (Identity.Unwrap (Sample.env Sample.nonce) Sample.identity [Sample.newlineArg]).1 =
      .ok Sample.fileKey ∧
    (Identity.Unwrap (Sample.env Sample.nonce) Sample.identity [Sample.newlineArg]).2 =
      (Identity.assert (Sample.env Sample.nonce) Sample.identity Sample.nonce).2 ∧
    (Identity.Unwrap (Sample.env Sample.nonce) Sample.identity [Sample.newlineArg]).2 ≠ [] :=
  ⟨by rfl, by rfl, by decide, Sample.not_an_encoding _ (by decide), by rfl, by rfl, by rfl,
    by decide⟩

theorem malformed_stanza_aborts_witness :
    NoStanzaOfScheme [Sample.otherStanza] ∧
    (Identity.Unwrap (Sample.env Sample.nonce) Sample.identity [Sample.stanza]).1 =
      .ok Sample.fileKey ∧
    (Sample.twoArgs.Type_ = label ∧ Sample.twoArgs.Args.length ≠ 1 ∧
      Identity.Unwrap (Sample.env Sample.nonce) Sample.identity
          ([Sample.otherStanza] ++ Sample.twoArgs :: [Sample.stanza]) =
        (.error (if Sample.twoArgs.Args.length ≠ 1 then
            Error.New "fido2prf: invalid stanza: expected 1 argument"
          else Error.New "fido2prf: invalid nonce"), [])) ∧
    (Sample.padded.Type_ = label ∧
      (∀ nonce, (Sample.env Sample.nonce).base64Decode (Sample.padded.Args.getD 0 []) =
        .ok nonce → nonce.length ≠ 16) ∧
      Identity.Unwrap (Sample.env Sample.nonce) Sample.identity
          ([Sample.otherStanza] ++ Sample.padded :: [Sample.stanza]) =
        (.error (if Sample.padded.Args.length ≠ 1 then
            Error.New "fido2prf: invalid stanza: expected 1 argument"
          else Error.New "fido2prf: invalid nonce"), [])) ∧
    (Base64Sound (Sample.env Sample.nonce) ∧
      (∀ b : Bytes, b.length = 16 →
        stripLineBreaks (Sample.padded.Args.getD 0 []) ≠
          (Sample.env Sample.nonce).base64Encode b) ∧
      Identity.Unwrap (Sample.env Sample.nonce) Sample.identity
          ([Sample.otherStanza] ++ Sample.padded :: [Sample.stanza]) =
        (.error (if Sample.padded.Args.length ≠ 1 then
            Error.New "fido2prf: invalid stanza: expected 1 argument"
          else Error.New "fido2prf: invalid nonce"), [])) :=
  ⟨sample_no_stanza_of_scheme, by rfl,
    ⟨by rfl, by decide,
      (malformed_stanza_aborts (Sample.env Sample.nonce) Sample.identity [Sample.otherStanza]
        [Sample.stanza] Sample.twoArgs sample_no_stanza_of_scheme (by rfl)
        (Or.inl (by decide))).1⟩,
    ⟨by rfl, sample_padded_argument,
      (malformed_stanza_aborts (Sample.env Sample.nonce) Sample.identity [Sample.otherStanza]
        [Sample.stanza] Sample.padded sample_no_stanza_of_scheme (by rfl)
        (Or.inr (Or.inl sample_padded_argument))).1⟩,
    ⟨Sample.base64Sound _, Sample.not_an_encoding _ (by decide),
      (malformed_stanza_aborts (Sample.env Sample.nonce) Sample.identity [Sample.otherStanza]
        [Sample.stanza] Sample.padded sample_no_stanza_of_scheme (by rfl)
        (Or.inr (Or.inr ⟨Sample.base64Sound _, Sample.not_an_encoding _ (by decide)⟩))).1⟩⟩

/-! ## Further properties of the codec and of the protocol -/

namespace ctap2cbor

theorem byte_bits (b : Byte) : b.val >>> 5 = b.val / 32 ∧ b.val &&& 0x1f = b.val % 32 :=
  ⟨Nat.shiftRight_eq_div_pow b.val 5, Nat.and_pow_two_sub_one_eq_mod b.val 5⟩

theorem readTypeAndArgument_of_specHeader (s : Bytes) (m a : Nat) (rest : Bytes)
    (h : specHeader s = some (m, a, rest)) :
    readTypeAndArgument s = { major := m, arg := a, ok := true, s := rest } := by
  cases s with
  | nil => simp [specHeader] at h
  | cons b0 tl =>
    obtain ⟨hs, ha⟩ := byte_bits b0
    simp only [specHeader] at h
    simp only [readTypeAndArgument, hs, ha]
    by_cases h1 : b0.val % 32 ≤ 23
    · simp only [h1, if_true, Option.some.injEq, Prod.mk.injEq] at h
      obtain ⟨rfl, rfl, rfl⟩ := h
      have e : toUint16 (b0.val % 32) = b0.val % 32 := by
        simp only [toUint16]; omega
      simp [h1, e]
    · simp only [h1, if_false] at h ⊢
      by_cases h2 : b0.val % 32 = 24
      · simp only [h2, if_true] at h ⊢
        cases tl with
        | nil => simp at h
        | cons b1 tl =>
          simp only [Option.some.injEq, Prod.mk.injEq] at h
          obtain ⟨rfl, rfl, rfl⟩ := h
          have e : toUint16 b1.val = b1.val := by
            simp only [toUint16]; omega
          have l : ¬ (tl.length + 1 + 1 < 2) := by omega
          simp [e, l]
      · simp only [h2, if_false] at h ⊢
        by_cases h3 : b0.val % 32 = 25
        · simp only [h3, if_true] at h ⊢
          cases tl with
          | nil => simp at h
          | cons b1 tl =>
            cases tl with
            | nil => simp at h
            | cons b2 tl =>
              simp only [Option.some.injEq, Prod.mk.injEq] at h
              obtain ⟨rfl, rfl, rfl⟩ := h
              have l : ¬ (tl.length + 1 + 1 + 1 < 3) := by omega
              simp [l]
        · simp [h3] at h

theorem readTypeAndArgument_of_specHeader_none (s : Bytes) (h : specHeader s = none) :
    (readTypeAndArgument s).ok = false := by
  cases s with
  | nil => simp [readTypeAndArgument]
  | cons b0 tl =>
    obtain ⟨hs, ha⟩ := byte_bits b0
    simp only [specHeader] at h
    simp only [readTypeAndArgument, hs, ha]
    by_cases h1 : b0.val % 32 ≤ 23
    · simp [h1] at h
    · simp only [h1, if_false] at h ⊢
      by_cases h2 : b0.val % 32 = 24
      · simp only [h2, if_true] at h ⊢
        cases tl with
        | nil => simp
        | cons b1 tl => simp at h
      · simp only [h2, if_false] at h ⊢
        by_cases h3 : b0.val % 32 = 25
        · simp only [h3, if_true] at h ⊢
          cases tl with
          | nil => simp
          | cons b1 tl =>
            cases tl with
            | nil => simp
            | cons b2 tl => simp at h
        · simp [h3]

end ctap2cbor

namespace ctap2cbor

/-- The two shapes of `specHeader s`. -/
theorem specHeader_cases (s : Bytes) :
    specHeader s = none ∨ ∃ m a rest, specHeader s = some (m, a, rest) := by
  cases h : specHeader s with
  | none => exact Or.inl rfl
  | some v => exact Or.inr ⟨v.1, v.2.1, v.2.2, rfl⟩

theorem ReadBytes_of_specHeader (b out : Bytes) (m a : Nat) (rest : Bytes)
    (h : specHeader b = some (m, a, rest)) :
    ReadBytes b out =
      if m = 2 ∧ a ≤ rest.length then { ok := true, out := rest.take a, s := rest.drop a }
      else { ok := false, out := out, s := rest } := by
  have hk := readTypeAndArgument_of_specHeader b m a rest h
  by_cases hm : m = 2
  · by_cases hl : rest.length < a
    · have hl2 : ¬ (a ≤ rest.length) := by omega
      simp [ReadBytes, hk, hm, hl, hl2]
    · have hl2 : a ≤ rest.length := by omega
      simp [ReadBytes, hk, hm, hl, hl2]
  · simp [ReadBytes, hk, hm]

theorem ReadString_of_specHeader (b : Bytes) (out : GoString) (m a : Nat) (rest : Bytes)
    (h : specHeader b = some (m, a, rest)) :
    ReadString b out =
      if m = 3 ∧ a ≤ rest.length then { ok := true, out := rest.take a, s := rest.drop a }
      else { ok := false, out := out, s := rest } := by
  have hk := readTypeAndArgument_of_specHeader b m a rest h
  by_cases hm : m = 3
  · by_cases hl : rest.length < a
    · have hl2 : ¬ (a ≤ rest.length) := by omega
      simp [ReadString, hk, hm, hl, hl2]
    · have hl2 : a ≤ rest.length := by omega
      simp [ReadString, hk, hm, hl, hl2]
  · simp [ReadString, hk, hm]

theorem ReadUint_of_specHeader (b : Bytes) (out : Nat) (m a : Nat) (rest : Bytes)
    (h : specHeader b = some (m, a, rest)) :
    ReadUint b out =
      if m = 0 then { ok := true, out := a, s := rest }
      else { ok := false, out := out, s := rest } := by
  have hk := readTypeAndArgument_of_specHeader b m a rest h
  by_cases hm : m = 0 <;> simp [ReadUint, hk, hm]

theorem ReadBytes_spec (b out : Bytes) :
    ((ReadBytes b out).ok = true ↔
      ∃ n rest, specHeader b = some (2, n, rest) ∧ n ≤ rest.length) ∧
    (∀ n rest, specHeader b = some (2, n, rest) → n ≤ rest.length →
      (ReadBytes b out).out = rest.take n ∧ (ReadBytes b out).s = rest.drop n) := by
  constructor
  · constructor
    · intro hok
      rcases specHeader_cases b with h | ⟨m, a, rest, h⟩
      · have hk := readTypeAndArgument_of_specHeader_none b h
        simp [ReadBytes, hk] at hok
      · rw [ReadBytes_of_specHeader b out m a rest h] at hok
        by_cases hc : m = 2 ∧ a ≤ rest.length
        · obtain ⟨rfl, hl⟩ := hc
          exact ⟨a, rest, h, hl⟩
        · simp [hc] at hok
    · rintro ⟨n, rest, h, hl⟩
      rw [ReadBytes_of_specHeader b out 2 n rest h]
      simp [hl]
  · intro n rest h hl
    rw [ReadBytes_of_specHeader b out 2 n rest h]
    simp [hl]

theorem ReadString_spec (b : Bytes) (out : GoString) :
    ((ReadString b out).ok = true ↔
      ∃ n rest, specHeader b = some (3, n, rest) ∧ n ≤ rest.length) ∧
    (∀ n rest, specHeader b = some (3, n, rest) → n ≤ rest.length →
      (ReadString b out).out = rest.take n ∧ (ReadString b out).s = rest.drop n) := by
  constructor
  · constructor
    · intro hok
      rcases specHeader_cases b with h | ⟨m, a, rest, h⟩
      · have hk := readTypeAndArgument_of_specHeader_none b h
        simp [ReadString, hk] at hok
      · rw [ReadString_of_specHeader b out m a rest h] at hok
        by_cases hc : m = 3 ∧ a ≤ rest.length
        · obtain ⟨rfl, hl⟩ := hc
          exact ⟨a, rest, h, hl⟩
        · simp [hc] at hok
    · rintro ⟨n, rest, h, hl⟩
      rw [ReadString_of_specHeader b out 3 n rest h]
      simp [hl]
  · intro n rest h hl
    rw [ReadString_of_specHeader b out 3 n rest h]
    simp [hl]

theorem ReadUint_spec (b : Bytes) (out : Nat) :
    ((ReadUint b out).ok = true ↔ ∃ n rest, specHeader b = some (0, n, rest)) ∧
    (∀ n rest, specHeader b = some (0, n, rest) →
      (ReadUint b out).out = n ∧ (ReadUint b out).s = rest) := by
  constructor
  · constructor
    · intro hok
      rcases specHeader_cases b with h | ⟨m, a, rest, h⟩
      · have hk := readTypeAndArgument_of_specHeader_none b h
        simp [ReadUint, hk] at hok
      · rw [ReadUint_of_specHeader b out m a rest h] at hok
        by_cases hc : m = 0
        · subst hc
          exact ⟨a, rest, h⟩
        · simp [hc] at hok
    · rintro ⟨n, rest, h⟩
      rw [ReadUint_of_specHeader b out 0 n rest h]
      simp
  · intro n rest h
    rw [ReadUint_of_specHeader b out 0 n rest h]
    simp

theorem specHeader_wide (b0 : Byte) (tl : Bytes) (h : 26 ≤ b0.val % 32) :
    specHeader (b0 :: tl) = none := by
  have h1 : ¬ (b0.val % 32 ≤ 23) := by omega
  have h2 : ¬ (b0.val % 32 = 24) := by omega
  have h3 : ¬ (b0.val % 32 = 25) := by omega
  simp [specHeader, h1, h2, h3]

end ctap2cbor

open ctap2cbor

/-- C11. Read* failure conditions: `ReadBytes` (resp. `ReadString`) returns ok
exactly when the buffer starts with a header in the sense of `specHeader` (first
byte present, low 5 bits at most 25, argument bytes present) whose major type is
2 (resp. 3) and whose argument `n` is at most the number of bytes after the
header, and then the output is the next `n` bytes and the cursor what follows
them; `ReadUint` returns ok exactly when there is such a header of major type 0,
with the argument as output and the bytes after the header as cursor; a first
byte whose low 5 bits are in 26..31 makes `ReadUint`, `ReadBytes`, `ReadString`
and `ReadArray` fail. -/
theorem read_failure_conditions (b : Bytes) (outU : Nat) (outB : Bytes) (outS : GoString)
    (outA : List GoString) :
    ((ReadBytes b outB).ok = true ↔
      ∃ n rest, specHeader b = some (2, n, rest) ∧ n ≤ rest.length) ∧
    (∀ n rest, specHeader b = some (2, n, rest) → n ≤ rest.length →
      (ReadBytes b outB).out = rest.take n ∧ (ReadBytes b outB).s = rest.drop n) ∧
    ((ReadString b outS).ok = true ↔
      ∃ n rest, specHeader b = some (3, n, rest) ∧ n ≤ rest.length) ∧
    (∀ n rest, specHeader b = some (3, n, rest) → n ≤ rest.length →
      (ReadString b outS).out = rest.take n ∧ (ReadString b outS).s = rest.drop n) ∧
    ((ReadUint b outU).ok = true ↔ ∃ n rest, specHeader b = some (0, n, rest)) ∧
    (∀ n rest, specHeader b = some (0, n, rest) →
      (ReadUint b outU).out = n ∧ (ReadUint b outU).s = rest) ∧
    (∀ b0 tl, b = b0 :: tl → 26 ≤ b0.val % 32 →
      (ReadUint b outU).ok = false ∧ (ReadBytes b outB).ok = false ∧
      (ReadString b outS).ok = false ∧ (ReadArray b outA).ok = false) := by
  refine ⟨(ReadBytes_spec b outB).1, (ReadBytes_spec b outB).2, (ReadString_spec b outS).1,
    (ReadString_spec b outS).2, (ReadUint_spec b outU).1, (ReadUint_spec b outU).2, ?_⟩
  intro b0 tl hb h26
  subst hb
  have hk := readTypeAndArgument_of_specHeader_none _ (specHeader_wide b0 tl h26)
  simp [ReadUint, ReadBytes, ReadString, ReadArray, hk]

theorem read_failure_conditions_witness :
    ((ReadBytes [0x42, 7, 8, 9] []).ok = true ↔
      ∃ n rest, specHeader [0x42, 7, 8, 9] = some (2, n, rest) ∧ n ≤ rest.length) ∧
    (ReadBytes [0x42, 7, 8, 9] []).out = [7, 8] ∧ (ReadBytes [0x42, 7, 8, 9] []).s = [9] ∧
    (ReadBytes [0x43, 7, 8] []).ok = false ∧
    (ReadString [0x5a, 0, 0, 0, 1, 7] []).ok = false ∧
    (ReadUint [0x1f] 0).ok = false :=
  ⟨(read_failure_conditions [0x42, 7, 8, 9] 0 [] [] []).1,
    ((read_failure_conditions [0x42, 7, 8, 9] 0 [] [] []).2.1 2 [7, 8, 9] (by rfl)
      (by decide)).1,
    ((read_failure_conditions [0x42, 7, 8, 9] 0 [] [] []).2.1 2 [7, 8, 9] (by rfl)
      (by decide)).2,
    by decide,
    ((read_failure_conditions [0x5a, 0, 0, 0, 1, 7] 0 [] [] []).2.2.2.2.2.2 0x5a [0, 0, 0, 1, 7]
      rfl (by decide)).2.2.1,
    ((read_failure_conditions [0x1f] 0 [] [] []).2.2.2.2.2.2 0x1f [] rfl (by decide)).1⟩



/-- C12. Salt derivation: for a nonce of any length, with SHA-256 a function that
returns 32 bytes, `hmacSecretSalt` is the hash of "WebAuthn PRF", a zero byte,
the label, the byte 1 and the nonce, followed by the hash of the same input with
the byte 2 in place of the byte 1; its length is 64. -/
theorem salt_derivation (env : Env) (nonce : Bytes)
    (hH : ∀ b, (env.sha256 b).length = 32) :
    hmacSecretSalt env nonce =
      env.sha256 (ascii "WebAuthn PRF" ++ [0x00] ++ ascii "age-encryption.org/fido2prf" ++
        [0x01] ++ nonce) ++
      env.sha256 (ascii "WebAuthn PRF" ++ [0x00] ++ ascii "age-encryption.org/fido2prf" ++
        [0x02] ++ nonce) ∧
    (hmacSecretSalt env nonce).length = 64 := by
  have e : hmacSecretSalt env nonce =
      env.sha256 (ascii "WebAuthn PRF" ++ [0x00] ++ ascii "age-encryption.org/fido2prf" ++
        [0x01] ++ nonce) ++
      env.sha256 (ascii "WebAuthn PRF" ++ [0x00] ++ ascii "age-encryption.org/fido2prf" ++
        [0x02] ++ nonce) := by
    simp only [hmacSecretSalt, label, List.nil_append]
  refine ⟨e, ?_⟩
  rw [e, List.length_append, hH, hH]

theorem Sample.digest_length (b : Bytes) : (Sample.digest b).length = 32 := by
  simp [Sample.digest]

theorem salt_derivation_witness :
    (∀ b, ((Sample.env Sample.nonce).sha256 b).length = 32) ∧
    hmacSecretSalt (Sample.env Sample.nonce) [1, 2, 3] =
      (Sample.env Sample.nonce).sha256 (ascii "WebAuthn PRF" ++ [0x00] ++
        ascii "age-encryption.org/fido2prf" ++ [0x01] ++ [1, 2, 3]) ++
      (Sample.env Sample.nonce).sha256 (ascii "WebAuthn PRF" ++ [0x00] ++
        ascii "age-encryption.org/fido2prf" ++ [0x02] ++ [1, 2, 3]) ∧
    (hmacSecretSalt (Sample.env Sample.nonce) [1, 2, 3]).length = 64 :=
  ⟨Sample.digest_length,
    salt_derivation (Sample.env Sample.nonce) [1, 2, 3] Sample.digest_length⟩



/-- C13. Sealer: with `chacha20poly1305.New` giving a cipher of overhead 16 for
every 32-byte key, `aeadDecrypt key 16` opens what `aeadEncrypt key` sealed from
a 16-byte plaintext, provided the cipher opens what it seals and adds its
overhead to the length; and a ciphertext whose length is not `size + 16` makes
`aeadDecrypt` return the length error, whatever the `Open` of the cipher does,
nothing being assumed of it. -/
theorem sealer (env : Env) (hnew : ChaChaKeyed env) :
    (ChaChaSeals env → ∀ key pt : Bytes, key.length = 32 → pt.length = 16 →
      ∃ ct, aeadEncrypt env key pt = .ok ct ∧ aeadDecrypt env key 16 ct = .ok pt) ∧
    (∀ (key : Bytes) (size : Nat) (ct : Bytes), key.length = 32 → ct.length ≠ size + 16 →
      aeadDecrypt env key size ct =
        .error (Error.New "encrypted value has unexpected length")) := by
  constructor
  · intro hseal key pt hkey hpt
    obtain ⟨aead, hk, hov⟩ := hnew key hkey
    obtain ⟨hlen, hopen⟩ := hseal key aead hk (zeros chacha20poly1305.NonceSize) pt
    refine ⟨aead.Seal [] (zeros chacha20poly1305.NonceSize) pt [], ?_, ?_⟩
    · simp [aeadEncrypt, hk]
    · simp [aeadDecrypt, hk, hlen, hpt, hopen]
  · intro key size ct hkey hct
    obtain ⟨aead, hk, hov⟩ := hnew key hkey
    simp [aeadDecrypt, hk, hov, hct]

theorem Sample.tag_length (key pt : Bytes) : (Sample.tag key pt).length = 16 := by
  simp [Sample.tag, Sample.digest_length]

theorem Sample.aead_seals (key nonce pt : Bytes) :
    ((Sample.aead key).Seal [] nonce pt []).length = pt.length + (Sample.aead key).Overhead ∧
    (Sample.aead key).Open [] nonce ((Sample.aead key).Seal [] nonce pt []) [] = .ok pt := by
  have hl : (List.map (fun x => x + key.getD 0 0) pt ++ Sample.tag key pt).length =
      pt.length + 16 := by
    simp [Sample.tag_length]
  have hmap : List.map (fun x => x - key.getD 0 0) (List.map (fun x => x + key.getD 0 0) pt) =
      pt := by
    rw [List.map_map]
    have : ((fun x => x - key.getD 0 0) ∘ fun x => x + key.getD 0 0) = (id : Byte → Byte) := by
      funext x
      simp
    rw [this, List.map_id]
  have htake : List.take (pt.length + 16 - 16)
      (List.map (fun x => x + key.getD 0 0) pt ++ Sample.tag key pt) =
      List.map (fun x => x + key.getD 0 0) pt := by
    rw [Nat.add_sub_cancel]
    exact List.take_left' (by simp)
  have hdrop : List.drop (pt.length + 16 - 16)
      (List.map (fun x => x + key.getD 0 0) pt ++ Sample.tag key pt) = Sample.tag key pt := by
    rw [Nat.add_sub_cancel]
    exact List.drop_left' (by simp)
  constructor
  · simp only [Sample.aead, List.nil_append, hl]
  · simp only [Sample.aead, List.nil_append, hl, htake, hdrop, hmap]
    simp

theorem Sample.chaChaKeyed (nonce : Bytes) : ChaChaKeyed (Sample.env nonce) := by
  intro key hkey
  exact ⟨Sample.aead key, by simp [Sample.env, hkey], rfl⟩

theorem Sample.chaChaSeals (nonce : Bytes) : ChaChaSeals (Sample.env nonce) := by
  intro key aead hk n pt
  by_cases hkey : key.length = 32
  · simp only [Sample.env, hkey, if_true, Except.ok.injEq] at hk
    subst hk
    exact Sample.aead_seals key n pt
  · simp [Sample.env, hkey] at hk

theorem sealer_witness :
    ChaChaKeyed (Sample.env Sample.nonce) ∧ ChaChaSeals (Sample.env Sample.nonce) ∧
    Sample.key.length = 32 ∧ Sample.fileKey.length = 16 ∧
    (∃ ct, aeadEncrypt (Sample.env Sample.nonce) Sample.key Sample.fileKey = .ok ct ∧
      aeadDecrypt (Sample.env Sample.nonce) Sample.key 16 ct = .ok Sample.fileKey) ∧
    ([1, 2, 3] : Bytes).length ≠ 16 + 16 ∧
    aeadDecrypt (Sample.env Sample.nonce) Sample.key 16 [1, 2, 3] =
      .error (Error.New "encrypted value has unexpected length") :=
  ⟨Sample.chaChaKeyed _, Sample.chaChaSeals _, by rfl, by decide,
    (sealer (Sample.env Sample.nonce) (Sample.chaChaKeyed _)).1 (Sample.chaChaSeals _)
      Sample.key Sample.fileKey (by rfl) (by decide),
    by decide,
    (sealer (Sample.env Sample.nonce) (Sample.chaChaKeyed _)).2 Sample.key 16 [1, 2, 3]
      (by rfl) (by decide)⟩



/-- What a successful `Wrap` has computed. -/
theorem Wrap_ok (env : Env) (i : Identity) (fileKey nonce : Bytes) (stanzas : List Stanza)
    (hrand : env.randRead 16 = .ok nonce)
    (hwrap : (Identity.Wrap env i fileKey).1 = .ok stanzas) :
    ∃ secret aead, (Identity.assert env i nonce).1 = .ok secret ∧
      env.chacha20poly1305New (env.hkdfExtract secret label) = .ok aead ∧
      stanzas = [{ Type_ := label, Args := [env.base64Encode nonce],
                   Body := aead.Seal [] (zeros 12) fileKey [] }] := by
  simp only [Identity.Wrap, hrand] at hwrap
  cases hsec : (Identity.assert env i nonce).1 with
  | error e =>
    simp only [hsec] at hwrap
    cases hwrap
  | ok secret =>
    simp only [hsec, aeadEncrypt] at hwrap
    cases hk : env.chacha20poly1305New (env.hkdfExtract secret label) with
    | error e =>
      simp only [hk] at hwrap
      cases hwrap
    | ok aead =>
      simp only [hk, Except.ok.injEq] at hwrap
      exact ⟨secret, aead, rfl, hk, hwrap.symm⟩

/-- C14. Shape of Wrap's output: when `Wrap` succeeds on a 16-byte file key with
the 16-byte nonce it drew, it returns exactly one stanza, whose type is
"age-encryption.org/fido2prf", whose arguments are the base64 encoding of the
nonce alone (which decodes to 16 bytes, base64 decoding inverting encoding on
it), and whose body is the sealing of the file key by the cipher of the derived
key under the all-zero 12-byte nonce, 32 bytes long for a cipher that adds its
overhead of 16. -/
theorem wrap_output_shape (env : Env) (i : Identity) (fileKey nonce : Bytes)
    (stanzas : List Stanza)
    (hkey : fileKey.length = 16)
    (hrand : env.randRead 16 = .ok nonce) (hnonce : nonce.length = 16)
    (hb64 : env.base64Decode (env.base64Encode nonce) = .ok nonce)
    (hov : ChaChaOverhead env) (hseal : ChaChaSeals env)
    (hwrap : (Identity.Wrap env i fileKey).1 = .ok stanzas) :
    ∃ secret aead s, (Identity.assert env i nonce).1 = .ok secret ∧
      env.chacha20poly1305New (env.hkdfExtract secret label) = .ok aead ∧
      stanzas = [s] ∧ s.Type_ = ascii "age-encryption.org/fido2prf" ∧
      s.Args = [env.base64Encode nonce] ∧
      (∃ decoded, env.base64Decode (s.Args.getD 0 []) = .ok decoded ∧ decoded.length = 16) ∧
      s.Body = aead.Seal [] (zeros 12) fileKey [] ∧ s.Body.length = 32 := by
  obtain ⟨secret, aead, hsec, hk, hst⟩ := Wrap_ok env i fileKey nonce stanzas hrand hwrap
  refine ⟨secret, aead, _, hsec, hk, hst, rfl, rfl, ⟨nonce, ?_, hnonce⟩, rfl, ?_⟩
  · simpa using hb64
  · have := (hseal _ aead hk (zeros 12) fileKey).1
    rw [hov _ aead hk, hkey] at this
    exact this

theorem Sample.chaChaOverhead (nonce : Bytes) : ChaChaOverhead (Sample.env nonce) := by
  intro key aead hk
  by_cases hkey : key.length = 32
  · simp only [Sample.env, hkey, if_true, Except.ok.injEq] at hk
    subst hk
    rfl
  · simp [Sample.env, hkey] at hk

theorem wrap_output_shape_witness :
    Sample.fileKey.length = 16 ∧
    (Sample.env Sample.nonce).randRead 16 = .ok Sample.nonce ∧ Sample.nonce.length = 16 ∧
    (Sample.env Sample.nonce).base64Decode ((Sample.env Sample.nonce).base64Encode Sample.nonce) =
      .ok Sample.nonce ∧
    ChaChaOverhead (Sample.env Sample.nonce) ∧ ChaChaSeals (Sample.env Sample.nonce) ∧
    (Identity.Wrap (Sample.env Sample.nonce) Sample.identity Sample.fileKey).1 =
      .ok [Sample.stanza] ∧
    ∃ secret aead s,
      (Identity.assert (Sample.env Sample.nonce) Sample.identity Sample.nonce).1 = .ok secret ∧
      (Sample.env Sample.nonce).chacha20poly1305New
        ((Sample.env Sample.nonce).hkdfExtract secret label) = .ok aead ∧
      [Sample.stanza] = [s] ∧ s.Type_ = ascii "age-encryption.org/fido2prf" ∧
      s.Args = [(Sample.env Sample.nonce).base64Encode Sample.nonce] ∧
      (∃ decoded, (Sample.env Sample.nonce).base64Decode (s.Args.getD 0 []) = .ok decoded ∧
        decoded.length = 16) ∧
      s.Body = aead.Seal [] (zeros 12) Sample.fileKey [] ∧ s.Body.length = 32 :=
  ⟨by decide, by rfl, by decide, by rfl, Sample.chaChaOverhead _, Sample.chaChaSeals _, by rfl,
    wrap_output_shape (Sample.env Sample.nonce) Sample.identity Sample.fileKey Sample.nonce
      [Sample.stanza] (by decide) (by rfl) (by decide) (by rfl) (Sample.chaChaOverhead _)
      (Sample.chaChaSeals _) (by rfl)⟩

/-- C20. Wrap does not validate the length of the file key: under the
assumptions of the round trip, with a cipher of overhead 16, for a file key whose
length is not 16 `Wrap` still makes its hardware call and succeeds with the one
stanza of this scheme that carries the encoded nonce and the sealed file key, a
body of the length of the file key plus 16; in `Unwrap` of that stanza the
hardware call succeeds, `aeadDecrypt` fails with its length error, the stanza is
passed over, and the result is `age.ErrIncorrectIdentity`, not the file key. -/
theorem wrap_ignores_file_key_length (env : Env) (i : Identity)
    (fileKey nonce secret : Bytes) (aead : AEAD)
    (hkey : fileKey.length ≠ 16)
    (hrand : env.randRead 16 = .ok nonce) (hnonce : nonce.length = 16)
    (hb64 : env.base64Decode (env.base64Encode nonce) = .ok nonce)
    (hassert : (Identity.assert env i nonce).1 = .ok secret)
    (hnew : env.chacha20poly1305New (env.hkdfExtract secret label) = .ok aead)
    (hov : aead.Overhead = 16)
    (hlen : (aead.Seal [] (zeros 12) fileKey []).length = fileKey.length + aead.Overhead) :
    Identity.Wrap env i fileKey =
      (.ok [{ Type_ := label, Args := [env.base64Encode nonce],
              Body := aead.Seal [] (zeros 12) fileKey [] }],
        (Identity.assert env i nonce).2) ∧
    (aead.Seal [] (zeros 12) fileKey []).length = fileKey.length + 16 ∧
    aeadDecrypt env (env.hkdfExtract secret label) 16 (aead.Seal [] (zeros 12) fileKey []) =
      .error (Error.New "encrypted value has unexpected length") ∧
    Identity.Unwrap env i [{ Type_ := label, Args := [env.base64Encode nonce],
                             Body := aead.Seal [] (zeros 12) fileKey [] }] =
      (.error Error.ErrIncorrectIdentity, (Identity.assert env i nonce).2) ∧
    (Identity.Unwrap env i [{ Type_ := label, Args := [env.base64Encode nonce],
                              Body := aead.Seal [] (zeros 12) fileKey [] }]).1 ≠
      .ok fileKey := by
  have hne : ¬ (fileKey.length + 16 = 16 + 16) := by omega
  have hdec : aeadDecrypt env (env.hkdfExtract secret label) 16
      (aead.Seal [] (zeros 12) fileKey []) =
        .error (Error.New "encrypted value has unexpected length") := by
    simp [aeadDecrypt, hnew, hlen, hov, hne]
  have hu : Identity.Unwrap env i [{ Type_ := label, Args := [env.base64Encode nonce],
                                     Body := aead.Seal [] (zeros 12) fileKey [] }] =
      (.error Error.ErrIncorrectIdentity, (Identity.assert env i nonce).2) := by
    rw [Unwrap_wellformed env i _ [] (env.base64Encode nonce) nonce rfl rfl hb64 hnonce]
    simp [hassert, hdec, Eff.after, Identity.Unwrap]
  refine ⟨?_, ?_, hdec, hu, ?_⟩
  · simp [Identity.Wrap, hrand, hassert, aeadEncrypt, hnew, chacha20poly1305.NonceSize]
  · simp only [hlen, hov]
  · rw [hu]
    simp

theorem wrap_ignores_file_key_length_witness :
    Sample.shortKey.length ≠ 16 ∧
    (Sample.env Sample.nonce).randRead 16 = .ok Sample.nonce ∧ Sample.nonce.length = 16 ∧
    (Sample.env Sample.nonce).base64Decode ((Sample.env Sample.nonce).base64Encode Sample.nonce) =
      .ok Sample.nonce ∧
    (Identity.assert (Sample.env Sample.nonce) Sample.identity Sample.nonce).1 =
      .ok Sample.secret ∧
    (Sample.env Sample.nonce).chacha20poly1305New
      ((Sample.env Sample.nonce).hkdfExtract Sample.secret label) = .ok (Sample.aead Sample.key) ∧
    (Sample.aead Sample.key).Overhead = 16 ∧
    ((Sample.aead Sample.key).Seal [] (zeros 12) Sample.shortKey []).length =
      Sample.shortKey.length + (Sample.aead Sample.key).Overhead ∧
    Identity.Wrap (Sample.env Sample.nonce) Sample.identity Sample.shortKey =
      (.ok [{ Type_ := label, Args := [(Sample.env Sample.nonce).base64Encode Sample.nonce],
              Body := (Sample.aead Sample.key).Seal [] (zeros 12) Sample.shortKey [] }],
        (Identity.assert (Sample.env Sample.nonce) Sample.identity Sample.nonce).2) ∧
    aeadDecrypt (Sample.env Sample.nonce)
        ((Sample.env Sample.nonce).hkdfExtract Sample.secret label) 16
        ((Sample.aead Sample.key).Seal [] (zeros 12) Sample.shortKey []) =
      .error (Error.New "encrypted value has unexpected length") ∧
    Identity.Unwrap (Sample.env Sample.nonce) Sample.identity
        [{ Type_ := label, Args := [(Sample.env Sample.nonce).base64Encode Sample.nonce],
           Body := (Sample.aead Sample.key).Seal [] (zeros 12) Sample.shortKey [] }] =
      (.error Error.ErrIncorrectIdentity,
        (Identity.assert (Sample.env Sample.nonce) Sample.identity Sample.nonce).2) :=
  have h := wrap_ignores_file_key_length (Sample.env Sample.nonce) Sample.identity
    Sample.shortKey Sample.nonce Sample.secret (Sample.aead Sample.key)
    (by decide) (by rfl) (by decide) (by rfl) (by rfl) (by rfl) (by rfl) (by rfl)
  ⟨by decide, by rfl, by decide, by rfl, by rfl, by rfl, by rfl, by rfl, h.1, h.2.2.1,
    h.2.2.2.1⟩

namespace ctap2cbor

theorem appendStrings_none (ts : List GoString) (buf : Bytes)
    (h : ∃ t ∈ ts, t.length > 65535) : appendStrings buf ts = none := by
  cases hr : appendStrings buf ts with
  | none => rfl
  | some r =>
    obtain ⟨t, ht, hlen⟩ := h
    have := appendStrings_some ts buf r hr t ht
    omega

end ctap2cbor

open ctap2cbor

/-- C15. Over-long values are fatal: `AppendBytes` and `AppendString` panic
exactly when the argument is longer than 65535 bytes, `AppendArray` exactly when
it has more than 65535 elements or an element longer than 65535 bytes; in every
other case the result is the header carrying the true length (the conversion to
`uint16` does not truncate) followed by the payload. -/
theorem over_long_values_panic (buf arg : Bytes) (str : GoString) (args : List GoString) :
    (AppendBytes buf arg = none ↔ arg.length > 65535) ∧
    (arg.length ≤ 65535 →
      AppendBytes buf arg = some (appendTypeAndArgument buf 2 arg.length ++ arg)) ∧
    (AppendString buf str = none ↔ str.length > 65535) ∧
    (str.length ≤ 65535 →
      AppendString buf str = some (appendTypeAndArgument buf 3 str.length ++ str)) ∧
    (AppendArray buf args = none ↔ args.length > 65535 ∨ ∃ t ∈ args, t.length > 65535) ∧
    (args.length ≤ 65535 → (∀ t ∈ args, t.length ≤ 65535) →
      AppendArray buf args =
        some (appendTypeAndArgument buf 4 args.length ++ encStrings args)) := by
  have hB : arg.length ≤ 65535 →
      AppendBytes buf arg = some (appendTypeAndArgument buf 2 arg.length ++ arg) := by
    intro h
    rw [AppendBytes_eq buf arg h, appendTypeAndArgument_eq_append buf, hdr,
      List.append_assoc]
  have hS : str.length ≤ 65535 →
      AppendString buf str = some (appendTypeAndArgument buf 3 str.length ++ str) := by
    intro h
    rw [AppendString_eq buf str h, appendTypeAndArgument_eq_append buf, hdr,
      List.append_assoc]
  have hA : args.length ≤ 65535 → (∀ t ∈ args, t.length ≤ 65535) →
      AppendArray buf args =
        some (appendTypeAndArgument buf 4 args.length ++ encStrings args) := by
    intro h ht
    rw [AppendArray_eq buf args h ht, appendTypeAndArgument_eq_append buf, hdr,
      List.append_assoc]
  refine ⟨?_, hB, ?_, hS, ?_, hA⟩
  · constructor
    · intro hn
      by_cases h : arg.length ≤ 65535
      · rw [hB h] at hn
        cases hn
      · omega
    · intro h
      have l : arg.length > 0xffff := h
      simp [AppendBytes, l]
  · constructor
    · intro hn
      by_cases h : str.length ≤ 65535
      · rw [hS h] at hn
        cases hn
      · omega
    · intro h
      have l : str.length > 0xffff := h
      simp [AppendString, l]
  · constructor
    · intro hn
      by_cases h : args.length ≤ 65535
      · by_cases ht : ∀ t ∈ args, t.length ≤ 65535
        · rw [hA h ht] at hn
          cases hn
        · right
          push_neg at ht
          obtain ⟨t, hm, hl⟩ := ht
          exact ⟨t, hm, by omega⟩
      · left
        omega
    · intro h
      by_cases hl : args.length > 0xffff
      · simp [AppendArray, hl]
      · rcases h with h | h
        · exact absurd h hl
        · simp only [AppendArray, hl, if_false]
          exact appendStrings_none args _ h

theorem replicate_too_long : (List.replicate 65536 (0 : Byte)).length > 65535 := by
  rw [List.length_replicate]
  decide

theorem over_long_values_panic_witness :
    AppendBytes [9] (List.replicate 65536 0) = none ∧
    AppendBytes [9] [1, 2, 3] = some (appendTypeAndArgument [9] 2 3 ++ [1, 2, 3]) ∧
    AppendArray [] [List.replicate 65536 0] = none :=
  ⟨(over_long_values_panic [9] (List.replicate 65536 0) [] []).1.mpr replicate_too_long,
    (over_long_values_panic [9] [1, 2, 3] [] []).2.1 (by decide),
    (over_long_values_panic [] [] [] [List.replicate 65536 0]).2.2.2.2.1.mpr
      (Or.inr ⟨List.replicate 65536 0, List.mem_cons_self _ _, replicate_too_long⟩)⟩



theorem assertLoop_count_getPIN (env : Env) (i : Identity) (nonce : Bytes)
    (locs : List DeviceLocation) :
    (assertLoop env i nonce locs).2.count Event.getPIN ≤ 1 := by
  induction locs with
  | nil => simp [assertLoop]
  | cons loc locs ih =>
    simp only [assertLoop]
    split
    · simp
    · split
      · split
        · simpa [Eff.after] using ih
        · simp
      · split
        · simp
        · split
          · simp
          · split <;> simp

theorem skipEvents_no_getPIN (env : Env) (i : Identity) (locs : List DeviceLocation) :
    Event.getPIN ∉ skipEvents env i locs := by
  induction locs with
  | nil => simp [skipEvents]
  | cons loc locs ih =>
    simp only [skipEvents]
    split <;> simp [probeOf, ih]

theorem assertLoop_cons_skipped (env : Env) (i : Identity) (nonce : Bytes)
    (loc : DeviceLocation) (rest : List DeviceLocation) (device : Device)
    (hdev : env.NewDevice loc.Path = .ok device)
    (hprobe : env.Assertion device i.relyingParty (zeros 32) [i.credentialID] [] probeOpts =
      .error Error.ErrNoCredentials) :
    assertLoop env i nonce (loc :: rest) =
      Eff.after [Event.newDevice loc.Path, probeOf i device] (assertLoop env i nonce rest) := by
  simp only [probeOpts] at hprobe
  simp only [assertLoop, hdev, hprobe, if_true, probeOf, probeOpts]

theorem assertLoop_skipped (env : Env) (i : Identity) (nonce : Bytes)
    (pre rest : List DeviceLocation) (h : ∀ l ∈ pre, Skipped env i l) :
    assertLoop env i nonce (pre ++ rest) =
      Eff.after (skipEvents env i pre) (assertLoop env i nonce rest) := by
  induction pre with
  | nil => simp [skipEvents, Eff.after]
  | cons loc pre ih =>
    obtain ⟨device, hdev, hprobe⟩ := h loc (List.mem_cons_self _ _)
    have ih := ih (fun l hl => h l (List.mem_cons_of_mem _ hl))
    rw [List.cons_append, assertLoop_cons_skipped env i nonce loc _ device hdev hprobe, ih]
    simp [skipEvents, hdev, Eff.after]

theorem assertLoop_atDevice (env : Env) (i : Identity) (nonce : Bytes)
    (loc : DeviceLocation) (post : List DeviceLocation) (device : Device)
    (hdev : env.NewDevice loc.Path = .ok device)
    (hprobe : env.Assertion device i.relyingParty (zeros 32) [i.credentialID] [] probeOpts ≠
      .error Error.ErrNoCredentials) :
    assertLoop env i nonce (loc :: post) =
      Eff.after [Event.newDevice loc.Path] (atDevice env i nonce device) := by
  simp only [probeOpts] at hprobe
  simp only [assertLoop, hdev, atDevice, probeOpts, probeOf, saltOpts, Eff.after]
  cases hp : env.Assertion device i.relyingParty (zeros 32) [i.credentialID] []
      { Extensions := [], UV := OptionValue.Default, UP := OptionValue.False, HMACSalt := [] } with
  | error err =>
    have hne : err ≠ Error.ErrNoCredentials := by
      intro h
      rw [h] at hp
      exact hprobe hp
    simp [hne]
  | ok a =>
    cases hpin : i.getPIN () with
    | error err => simp
    | ok pin =>
      cases h2 : env.Assertion device i.relyingParty (zeros 32) [i.credentialID] pin
          { Extensions := [Extension.HMACSecretExtension], UV := OptionValue.True,
            UP := OptionValue.Default, HMACSalt := hmacSecretSalt env nonce } with
      | error err => simp [h2]
      | ok a2 =>
        cases hs : a2.HMACSecret with
        | none => simp [h2, hs]
        | some secret => simp [h2, hs]


theorem assert_enumerated (env : Env) (i : Identity) (nonce : Bytes)
    (locs : List DeviceLocation) (hlocs : env.DeviceLocations = .ok locs) (hne : locs ≠ []) :
    Identity.assert env i nonce =
      Eff.after [Event.deviceLocations] (assertLoop env i nonce locs) := by
  have : locs.length ≠ 0 := by
    intro h
    exact hne (List.length_eq_zero.mp h)
  simp [Identity.assert, hlocs, this]

/-- C16, as the code has it. In one call of `assert` the PIN callback is invoked
at most once. When every enumerated device answers the probe with "no such
credential", each device is opened and probed in order and nothing else, the PIN
is not requested, and the call fails with "identity doesn't match any FIDO2
device" ("no FIDO2 devices found" when the enumeration is empty). When the
devices of `pre` are skipped so and the next one answers the probe otherwise,
the call is decided at that device and the devices after it are not visited:
the error of the probe, of the PIN request or of the second assertion is
propagated, and when the second assertion succeeds the call returns its secret,
or fails with "FIDO2 device doesn't support HMACSecret extension" when the
assertion carries none. -/
theorem assert_probing_discipline (env : Env) (i : Identity) (nonce : Bytes) :
    (Identity.assert env i nonce).2.count Event.getPIN ≤ 1 ∧
    (∀ locs, NoCredentialOnAnyDevice env i locs →
      (Identity.assert env i nonce).1 =
        .error (if locs = [] then Error.New "no FIDO2 devices found"
          else Error.New "identity doesn't match any FIDO2 device") ∧
      (Identity.assert env i nonce).2 = Event.deviceLocations :: skipEvents env i locs ∧
      Event.getPIN ∉ (Identity.assert env i nonce).2) ∧
    (∀ pre loc post device, env.DeviceLocations = .ok (pre ++ loc :: post) →
      (∀ l ∈ pre, Skipped env i l) → env.NewDevice loc.Path = .ok device →
      env.Assertion device i.relyingParty (zeros 32) [i.credentialID] [] probeOpts ≠
        .error Error.ErrNoCredentials →
      Identity.assert env i nonce =
        Eff.after (Event.deviceLocations :: skipEvents env i pre ++ [Event.newDevice loc.Path])
          (atDevice env i nonce device) ∧
      (∀ probed pin assertion,
        env.Assertion device i.relyingParty (zeros 32) [i.credentialID] [] probeOpts =
          .ok probed →
        i.getPIN () = .ok pin →
        env.Assertion device i.relyingParty (zeros 32) [i.credentialID] pin
          (saltOpts env nonce) = .ok assertion →
        (Identity.assert env i nonce).1 =
          match assertion.HMACSecret with
          | some secret => .ok secret
          | none => .error (Error.New "FIDO2 device doesn't support HMACSecret extension"))) := by
  refine ⟨?_, ?_, ?_⟩
  · simp only [Identity.assert]
    split
    · simp
    · split
      · simp
      · have := assertLoop_count_getPIN env i nonce ‹List DeviceLocation›
        simpa [Eff.after] using this
  · intro locs h
    obtain ⟨h1, h2⟩ := assert_noCredential env i nonce locs h
    refine ⟨h1, ?_, h2⟩
    obtain ⟨hlocs, hall⟩ := h
    cases locs with
    | nil => simp [Identity.assert, hlocs, skipEvents]
    | cons loc locs =>
      have hs : ∀ l ∈ loc :: locs, Skipped env i l := hall
      have := assertLoop_skipped env i nonce (loc :: locs) [] hs
      rw [List.append_nil] at this
      rw [assert_enumerated env i nonce (loc :: locs) hlocs (by simp), this]
      simp [Eff.after, assertLoop]
  · intro pre loc post device hlocs hpre hdev hprobe
    have key : Identity.assert env i nonce =
        Eff.after (Event.deviceLocations :: skipEvents env i pre ++ [Event.newDevice loc.Path])
          (atDevice env i nonce device) := by
      rw [assert_enumerated env i nonce _ hlocs (by simp),
        assertLoop_skipped env i nonce pre _ hpre,
        assertLoop_atDevice env i nonce loc post device hdev hprobe]
      simp [Eff.after]
    refine ⟨key, ?_⟩
    intro probed pin assertion hp hpin h2
    rw [key]
    simp only [saltOpts] at h2
    simp only [Eff.after, atDevice, hp, hpin, saltOpts, h2]
    cases assertion.HMACSecret <;> rfl

theorem Sample.first_device_skipped :
    ∀ l ∈ [({ Path := ascii "/dev/hidraw0" } : DeviceLocation)],
      Skipped Sample.envNoSecret Sample.identity l := by
  intro l hl
  rcases List.mem_cons.mp hl with rfl | hl
  · exact ⟨{ handle := 0 }, by rfl, by rfl⟩
  · cases hl

/-- C16 fails as stated where it says that the secret is returned whenever the
probe, the PIN request and the second assertion succeed: the second device of
`Sample.envNoSecret` answers the probe and the second assertion without error
and without a secret, and `assert` returns an error of its own, not a secret. -/
theorem assert_probing_discipline_counterexample :
    Sample.envNoSecret.DeviceLocations =
      .ok ([{ Path := ascii "/dev/hidraw0" }] ++ { Path := ascii "/dev/hidraw1" } :: []) ∧
    (∀ l ∈ [({ Path := ascii "/dev/hidraw0" } : DeviceLocation)],
      Skipped Sample.envNoSecret Sample.identity l) ∧
    Sample.envNoSecret.NewDevice (ascii "/dev/hidraw1") = .ok { handle := 1 } ∧
    Sample.envNoSecret.Assertion { handle := 1 } Sample.identity.relyingParty (zeros 32)
      [Sample.identity.credentialID] [] probeOpts = .ok { HMACSecret := none } ∧
    Sample.identity.getPIN () = .ok (ascii "1234") ∧
    Sample.envNoSecret.Assertion { handle := 1 } Sample.identity.relyingParty (zeros 32)
      [Sample.identity.credentialID] (ascii "1234") (saltOpts Sample.envNoSecret Sample.nonce) =
        .ok { HMACSecret := none } ∧
    (Identity.assert Sample.envNoSecret Sample.identity Sample.nonce).1 =
      .error (Error.New "FIDO2 device doesn't support HMACSecret extension") ∧
    ∀ secret, (Identity.assert Sample.envNoSecret Sample.identity Sample.nonce).1 ≠
      .ok secret := by
  have h : (Identity.assert Sample.envNoSecret Sample.identity Sample.nonce).1 =
      .error (Error.New "FIDO2 device doesn't support HMACSecret extension") := by rfl
  refine ⟨by rfl, Sample.first_device_skipped, by rfl, by rfl, by rfl, by rfl, h, ?_⟩
  intro secret
  rw [h]
  simp

theorem assert_probing_discipline_witness :
    (Identity.assert Sample.envNoSecret Sample.identity Sample.nonce).2.count Event.getPIN ≤ 1 ∧
    Identity.assert Sample.envNoSecret Sample.identity Sample.nonce =
      Eff.after (Event.deviceLocations ::
          skipEvents Sample.envNoSecret Sample.identity [{ Path := ascii "/dev/hidraw0" }] ++
          [Event.newDevice (ascii "/dev/hidraw1")])
        (atDevice Sample.envNoSecret Sample.identity Sample.nonce { handle := 1 }) ∧
    (Identity.assert (Sample.env Sample.nonce) Sample.stranger Sample.nonce).1 =
      .error (if ([{ Path := ascii "/dev/hidraw0" }, { Path := ascii "/dev/hidraw1" }] :
          List DeviceLocation) = [] then Error.New "no FIDO2 devices found"
        else Error.New "identity doesn't match any FIDO2 device") ∧
    Event.getPIN ∉ (Identity.assert (Sample.env Sample.nonce) Sample.stranger Sample.nonce).2 :=
  ⟨(assert_probing_discipline Sample.envNoSecret Sample.identity Sample.nonce).1,
    ((assert_probing_discipline Sample.envNoSecret Sample.identity Sample.nonce).2.2
      [{ Path := ascii "/dev/hidraw0" }] { Path := ascii "/dev/hidraw1" } [] { handle := 1 }
      (by rfl) Sample.first_device_skipped (by rfl) (by decide)).1,
    ((assert_probing_discipline (Sample.env Sample.nonce) Sample.stranger Sample.nonce).2.1 _
      sample_stranger_noCredential).1,
    ((assert_probing_discipline (Sample.env Sample.nonce) Sample.stranger Sample.nonce).2.1 _
      sample_stranger_noCredential).2.2⟩


open ctap2cbor

/-- C17, as the code has it. `NewIdentityFromData` does not check that text is
well-formed UTF-8: a record whose relying party, or one of whose transports, is
not well-formed UTF-8 is accepted when the lengths are within the 16-bit bounds,
and the decoded relying party and transports are those bytes unchanged. -/
theorem text_not_validated (cred : Bytes) (rp : GoString) (ts : List GoString)
    (getPIN : Unit → Except Error GoString)
    (hc : cred.length ≤ 65535) (hr : rp.length ≤ 65535) (hn : ts.length ≤ 65535)
    (ht : ∀ t ∈ ts, t.length ≤ 65535)
    (hbad : validUTF8 rp = false ∨ ∃ t ∈ ts, validUTF8 t = false) :
    ∃ e i, identityBytes cred rp ts = some e ∧ NewIdentityFromData e getPIN = .ok i ∧
      i.relyingParty = rp ∧ i.transports = ts ∧
      (validUTF8 i.relyingParty = false ∨ ∃ t ∈ i.transports, validUTF8 t = false) := by
  obtain ⟨e, he, hi⟩ := NewIdentityFromData_identityBytes cred rp ts getPIN hc hr hn ht
  exact ⟨e, _, he, hi, rfl, rfl, hbad⟩

/-- C17 fails as stated: the buffer `01 40 61 ff 80` is accepted, not rejected as
malformed, and the relying party decoded from it is the single byte `ff`, which
is not well-formed UTF-8. -/
theorem text_not_validated_counterexample :
    ∃ i, NewIdentityFromData [0x01, 0x40, 0x61, 0xff, 0x80] pinNone = .ok i ∧
      i.relyingParty = [0xff] ∧ validUTF8 i.relyingParty = false ∧
      NewIdentityFromData [0x01, 0x40, 0x61, 0xff, 0x80] pinNone ≠
        .error (Error.New "malformed fido2prf identity") :=
  ⟨{ credentialID := [], relyingParty := [0xff], transports := [], getPIN := pinNone },
    by rfl, by rfl, by decide, by
      have h : NewIdentityFromData [0x01, 0x40, 0x61, 0xff, 0x80] pinNone =
          .ok { credentialID := [], relyingParty := [0xff], transports := [],
                getPIN := pinNone } := by rfl
      rw [h]
      simp⟩

theorem text_not_validated_witness :
    ([] : Bytes).length ≤ 65535 ∧ ([0xff] : GoString).length ≤ 65535 ∧
    validUTF8 [0xff] = false ∧
    ∃ e i, identityBytes [] [0xff] [[0xc0, 0x80]] = some e ∧
      NewIdentityFromData e pinNone = .ok i ∧
      i.relyingParty = [0xff] ∧ i.transports = [[0xc0, 0x80]] ∧
      (validUTF8 i.relyingParty = false ∨ ∃ t ∈ i.transports, validUTF8 t = false) :=
  ⟨by decide, by decide, by decide,
    text_not_validated [] [0xff] [[0xc0, 0x80]] pinNone (by decide) (by decide) (by decide)
      (by decide) (Or.inl (by decide))⟩

/-- C19. Decoding is not injective: the buffers `18 01 40 60 80` and
`01 40 60 80` differ, both are accepted, and they decode to the same credential
identifier, relying party and transports; encoding the record decoded from the
first gives the second, not the first. Conversely a header written by
`appendTypeAndArgument` is minimal: any header that decodes to the same major
type and argument is at least as long. -/
theorem decoding_not_injective :
    (∃ i1 i2, ([0x18, 0x01, 0x40, 0x60, 0x80] : Bytes) ≠ [0x01, 0x40, 0x60, 0x80] ∧
      NewIdentityFromData [0x18, 0x01, 0x40, 0x60, 0x80] pinNone = .ok i1 ∧
      NewIdentityFromData [0x01, 0x40, 0x60, 0x80] pinNone = .ok i2 ∧
      i1.credentialID = i2.credentialID ∧ i1.relyingParty = i2.relyingParty ∧
      i1.transports = i2.transports ∧
      identityBytes i1.credentialID i1.relyingParty i1.transports =
        some [0x01, 0x40, 0x60, 0x80]) ∧
    (∀ (s : Bytes) (m n : Nat) (rest : Bytes),
      readTypeAndArgument s = { major := m, arg := n, ok := true, s := rest } →
        rest.length + (appendTypeAndArgument [] m n).length ≤ s.length) := by
  constructor
  · exact ⟨{ credentialID := [], relyingParty := [], transports := [], getPIN := pinNone },
      { credentialID := [], relyingParty := [], transports := [], getPIN := pinNone },
      by decide, by rfl, by rfl, rfl, rfl, rfl, by rfl⟩
  · intro s m n rest h
    rcases specHeader_cases s with hs | ⟨m', a, r, hs⟩
    · have := readTypeAndArgument_of_specHeader_none s hs
      rw [h] at this
      cases this
    · rw [readTypeAndArgument_of_specHeader s m' a r hs] at h
      simp only [Header.mk.injEq, true_and] at h
      obtain ⟨rfl, rfl, rfl⟩ := h
      cases s with
      | nil => simp [specHeader] at hs
      | cons b0 tl =>
        simp only [specHeader] at hs
        by_cases h1 : b0.val % 32 ≤ 23
        · simp only [h1, if_true, Option.some.injEq, Prod.mk.injEq] at hs
          obtain ⟨-, rfl, rfl⟩ := hs
          simp [appendTypeAndArgument, h1]
        · simp only [h1, if_false] at hs
          by_cases h2 : b0.val % 32 = 24
          · simp only [h2, if_true] at hs
            cases tl with
            | nil => simp at hs
            | cons b1 tl =>
              simp only [Option.some.injEq, Prod.mk.injEq] at hs
              obtain ⟨-, rfl, rfl⟩ := hs
              have hb : b1.val ≤ 0xff := by omega
              unfold appendTypeAndArgument
              split
              · simp
              · simp [hb]
          · simp only [h2, if_false] at hs
            by_cases h3 : b0.val % 32 = 25
            · simp only [h3, if_true] at hs
              cases tl with
              | nil => simp at hs
              | cons b1 tl =>
                cases tl with
                | nil => simp at hs
                | cons b2 tl =>
                  simp only [Option.some.injEq, Prod.mk.injEq] at hs
                  obtain ⟨-, rfl, rfl⟩ := hs
                  unfold appendTypeAndArgument
                  split
                  · simp
                  · split <;> simp
            · simp [h3] at hs


namespace ctap2cbor

theorem checked_readTypeAndArgument_eq (s : Bytes) :
    Checked.readTypeAndArgument s = some (readTypeAndArgument s) := by
  cases s with
  | nil => simp [Checked.readTypeAndArgument, readTypeAndArgument]
  | cons b0 tl =>
    have l1 : ¬ ((b0 :: tl).length < 1) := by simp
    have l2 : 1 ≤ (b0 :: tl).length := by simp
    simp only [Checked.readTypeAndArgument, readTypeAndArgument, l1, if_false, Checked.index,
      List.length_cons, Nat.zero_lt_succ, if_true, List.get?_cons_zero, Option.bind_eq_bind,
      Option.some_bind, Checked.sliceFrom]
    by_cases h1 : (b0.val &&& 0x1f) ≤ 23
    · simp [h1]
    · simp only [h1, if_false]
      by_cases h2 : (b0.val &&& 0x1f) = 24
      · simp only [h2, if_true]
        cases tl with
        | nil => simp
        | cons b1 tl =>
          have l : ¬ (tl.length + 1 + 1 < 2) := by omega
          simp [l]
      · simp only [h2, if_false]
        by_cases h3 : (b0.val &&& 0x1f) = 25
        · simp only [h3, if_true]
          cases tl with
          | nil => simp
          | cons b1 tl =>
            cases tl with
            | nil => simp
            | cons b2 tl =>
              have l : ¬ (tl.length + 1 + 1 + 1 < 3) := by omega
              simp [l]
        · simp [h3]

theorem checked_ReadUint_eq (s : Bytes) (out : Nat) :
    Checked.ReadUint s out = some (ReadUint s out) := by
  simp only [Checked.ReadUint, ReadUint, checked_readTypeAndArgument_eq, Option.bind_eq_bind,
    Option.some_bind]
  split <;> rfl

theorem checked_ReadBytes_eq (s out : Bytes) :
    Checked.ReadBytes s out = some (ReadBytes s out) := by
  simp only [Checked.ReadBytes, ReadBytes, checked_readTypeAndArgument_eq, Option.bind_eq_bind,
    Option.some_bind]
  split
  · rfl
  · split
    · rfl
    · rename_i hl
      have hle : (readTypeAndArgument s).arg ≤ (readTypeAndArgument s).s.length := by omega
      simp [Checked.sliceTo, Checked.sliceFrom, hle]

theorem checked_ReadString_eq (s : Bytes) (out : GoString) :
    Checked.ReadString s out = some (ReadString s out) := by
  simp only [Checked.ReadString, ReadString, checked_readTypeAndArgument_eq, Option.bind_eq_bind,
    Option.some_bind]
  split
  · rfl
  · split
    · rfl
    · rename_i hl
      have hle : (readTypeAndArgument s).arg ≤ (readTypeAndArgument s).s.length := by omega
      simp [Checked.sliceTo, Checked.sliceFrom, hle]

theorem checked_readArrayLoop_eq (n i : Nat) (s : Bytes) (out : List GoString)
    (h : i ≤ out.length) :
    Checked.readArrayLoop n i s out = some (readArrayLoop n i s out) := by
  induction n generalizing i s out with
  | zero => simp [Checked.readArrayLoop, readArrayLoop]
  | succ n ih =>
    have hi : i < (out ++ [[]]).length := by simp; omega
    have hget : (out ++ [[]]).get? i = some ((out ++ [[]]).getD i []) := by
      rw [List.getD_eq_getElem?_getD, List.get?_eq_getElem?, List.getElem?_eq_getElem hi]
      simp
    simp only [Checked.readArrayLoop, readArrayLoop, Checked.index, hi, if_true, hget,
      Option.bind_eq_bind, Option.some_bind, checked_ReadString_eq]
    split
    · rfl
    · exact ih _ _ _ (by simp; omega)

theorem checked_ReadArray_eq (s : Bytes) (out : List GoString) :
    Checked.ReadArray s out = some (ReadArray s out) := by
  simp only [Checked.ReadArray, ReadArray, checked_readTypeAndArgument_eq, Option.bind_eq_bind,
    Option.some_bind]
  split
  · rfl
  · exact checked_readArrayLoop_eq _ 0 _ out (Nat.zero_le _)

theorem readTypeAndArgument_suffix (s : Bytes) : (readTypeAndArgument s).s <:+ s := by
  cases s with
  | nil => simp [readTypeAndArgument]
  | cons b0 tl =>
    simp only [readTypeAndArgument]
    split
    · exact List.drop_suffix _ _
    · split
      · split
        · exact List.suffix_rfl
        · exact List.drop_suffix _ _
      · split
        · split
          · exact List.suffix_rfl
          · exact List.drop_suffix _ _
        · exact List.suffix_rfl

theorem ReadUint_suffix (s : Bytes) (out : Nat) : (ReadUint s out).s <:+ s := by
  simp only [ReadUint]
  split <;> exact readTypeAndArgument_suffix s

theorem ReadBytes_suffix (s out : Bytes) : (ReadBytes s out).s <:+ s := by
  simp only [ReadBytes]
  split
  · exact readTypeAndArgument_suffix s
  · split
    · exact readTypeAndArgument_suffix s
    · exact (List.drop_suffix _ _).trans (readTypeAndArgument_suffix s)

theorem ReadString_suffix (s : Bytes) (out : GoString) : (ReadString s out).s <:+ s := by
  simp only [ReadString]
  split
  · exact readTypeAndArgument_suffix s
  · split
    · exact readTypeAndArgument_suffix s
    · exact (List.drop_suffix _ _).trans (readTypeAndArgument_suffix s)

theorem readArrayLoop_suffix (n i : Nat) (s : Bytes) (out : List GoString) :
    (readArrayLoop n i s out).s <:+ s := by
  induction n generalizing i s out with
  | zero => simp [readArrayLoop]
  | succ n ih =>
    simp only [readArrayLoop]
    split
    · exact ReadString_suffix _ _
    · exact (ih _ _ _).trans (ReadString_suffix _ _)

theorem ReadArray_suffix (s : Bytes) (out : List GoString) : (ReadArray s out).s <:+ s := by
  simp only [ReadArray]
  split
  · exact readTypeAndArgument_suffix s
  · exact (readArrayLoop_suffix _ _ _ _).trans (readTypeAndArgument_suffix s)

theorem checked_NewIdentityFromData_eq (data : Bytes)
    (getPIN : Unit → Except Error GoString) :
    Checked.NewIdentityFromData data getPIN = some (Fido2prf.NewIdentityFromData data getPIN) := by
  simp only [Checked.NewIdentityFromData, Fido2prf.NewIdentityFromData, checked_ReadUint_eq,
    checked_ReadBytes_eq, checked_ReadString_eq, checked_ReadArray_eq, Option.bind_eq_bind,
    Option.some_bind]
  split
  · rfl
  · split
    · rfl
    · split
      · rfl
      · split
        · rfl
        · split <;> rfl

end ctap2cbor

open ctap2cbor

/-- C18. The malformed-input path is total: on every buffer
`readTypeAndArgument`, `ReadUint`, `ReadBytes`, `ReadString`, `ReadArray` and
`NewIdentityFromData`, run with every index and slice expression checked against
the length of the slice, never panic and return the outcome of the unchecked
embedding; the cursor they leave is a suffix of the input, on success and on
failure alike. -/
theorem decoder_total (s : Bytes) (outU : Nat) (outB : Bytes) (outS : GoString)
    (outA : List GoString) (getPIN : Unit → Except Error GoString) :
    (Checked.readTypeAndArgument s = some (readTypeAndArgument s) ∧
      (readTypeAndArgument s).s <:+ s) ∧
    (Checked.ReadUint s outU = some (ReadUint s outU) ∧ (ReadUint s outU).s <:+ s) ∧
    (Checked.ReadBytes s outB = some (ReadBytes s outB) ∧ (ReadBytes s outB).s <:+ s) ∧
    (Checked.ReadString s outS = some (ReadString s outS) ∧ (ReadString s outS).s <:+ s) ∧
    (Checked.ReadArray s outA = some (ReadArray s outA) ∧ (ReadArray s outA).s <:+ s) ∧
    Checked.NewIdentityFromData s getPIN = some (NewIdentityFromData s getPIN) :=
  ⟨⟨checked_readTypeAndArgument_eq s, readTypeAndArgument_suffix s⟩,
    ⟨checked_ReadUint_eq s outU, ReadUint_suffix s outU⟩,
    ⟨checked_ReadBytes_eq s outB, ReadBytes_suffix s outB⟩,
    ⟨checked_ReadString_eq s outS, ReadString_suffix s outS⟩,
    ⟨checked_ReadArray_eq s outA, ReadArray_suffix s outA⟩,
    checked_NewIdentityFromData_eq s getPIN⟩


end Fido2prf
